import Mathlib

/-!
# Verification of the gvdot DOT-language builder

This file gives a shallow embedding, in Lean 4, of the core of the `gvdot`
Python library (`src/gvdot.py`): identifier normalization, placeholder
(`Nonce`) resolution, the attribute/role machinery, the edge identity
algorithm, theme (`_Mien`) resolution, the DOT serializer, and the
`use_theme` cycle check.  Python strings are modelled as `List Char`,
Python dicts as insertion-ordered association lists, and object identity
of `Nonce` values as an integer token.  Theorems about the claims of the
specification follow the definitions.
-/

/-- Model of a Python `str`: a list of characters. -/
abbrev Str := List Char

/-- Set of reserved DOT words (`_RESERVED_IDS` in the source). -/
def reservedIds : List Str :=
  ["strict".data, "graph".data, "digraph".data, "node".data,
   "edge".data, "subgraph".data]

/-- First alternative of `_SIMPLE_ID_RE`: `[a-zA-Z_][a-zA-Z0-9_]*`. -/
def simpleAlphaId : Str → Bool
  | [] => false
  | c :: cs => (c.isAlpha || c = '_') &&
      cs.all (fun d => d.isAlpha || d.isDigit || d = '_')

/-- The `[0-9]*([.][0-9]*)?` continuation of the numeric alternative of
`_SIMPLE_ID_RE`, entered after at least one digit. -/
def digitsThen : Str → Bool
  | [] => true
  | c :: r => if c = '.' then r.all Char.isDigit else c.isDigit && digitsThen r

/-- Body of the numeric alternative of `_SIMPLE_ID_RE`:
`[.][0-9]+|[0-9]+([.][0-9]*)?`. -/
def simpleNumericBody : Str → Bool
  | [] => false
  | c :: r => if c = '.' then !r.isEmpty && r.all Char.isDigit
              else c.isDigit && digitsThen r

/-- Numeric alternative of `_SIMPLE_ID_RE` with the optional sign: `-?(...)`. -/
def simpleNumeric (s : Str) : Bool :=
  simpleNumericBody (if s.headD ' ' = '-' then s.tail else s)

/-- Full match of `_SIMPLE_ID_RE`. -/
def simpleIdMatch (s : Str) : Bool :=
  simpleAlphaId s || simpleNumeric s

/-- `_NEEDESCAPE_RE.search`: does the string contain `"`, `\n`, `\r` or `\\`? -/
def needEscape (s : Str) : Bool :=
  s.any (fun c => c = '"' || c = '\n' || c = '\r' || c = '\\')

/-- `s.replace('\\','\\\\')`. -/
def escBackslash : Str → Str
  | [] => []
  | c :: cs => if c = '\\' then '\\' :: '\\' :: escBackslash cs
               else c :: escBackslash cs

/-- `s.replace('"','\\"')`. -/
def escQuote : Str → Str
  | [] => []
  | c :: cs => if c = '"' then '\\' :: '"' :: escQuote cs
               else c :: escQuote cs

/-- `s.replace('\r\n','\\n')`; left-to-right, non-overlapping, a lone CR is
left alone. -/
def escCRLF : Str → Str
  | [] => []
  | [c] => [c]
  | c :: d :: ds =>
    if c = '\r' ∧ d = '\n' then '\\' :: 'n' :: escCRLF ds
    else c :: escCRLF (d :: ds)

/-- `s.replace('\n','\\n')`. -/
def escLF : Str → Str
  | [] => []
  | c :: cs => if c = '\n' then '\\' :: 'n' :: escLF cs
               else c :: escLF cs

/-- The four sequential replacements performed by `_normalize` before
quoting a string that contains characters needing escape. -/
def escapeSeq (s : Str) : Str :=
  escLF (escCRLF (escQuote (escBackslash s)))

/-- The string branch of `_normalize`: render bare when the value fully
matches the simple-identifier regex and is not reserved, otherwise quote it,
escaping when needed. -/
def normStr (s : Str) : Str :=
  if simpleIdMatch s && !(reservedIds.contains s) then s
  else
    let t := if needEscape s then escapeSeq s else s
    '"' :: (t ++ ['"'])

/-- `_prefer_quoted`: quote a normalized identifier unless it is empty,
already quoted, or markup. -/
def preferQuoted (s : Str) : Str :=
  if s ≠ [] && s.headD ' ' ≠ '"' && s.headD ' ' ≠ '<' then '"' :: (s ++ ['"'])
  else s

/-- A placeholder (`Nonce`).  Python compares Nonce objects by object
identity; the model carries that identity as the integer `token`.  The
constructor argument `prefix` of the source is the field `pfx`. -/
structure Nonce where
  token : Nat
  pfx : Str
deriving DecidableEq, Repr

/-- The public `ID` type: values acceptable wherever the DOT grammar
expects an *ID*.  (`float` values are omitted from the model; no claim
involves them, and their Python decimal rendering has no faithful
counterpart here.) -/
inductive ID where
  | str (s : Str)
  | int (n : Int)
  | bool (b : Bool)
  | markup (m : Str)
  | nonce (n : Nonce)
deriving DecidableEq, Repr

/-- `_NormID`: a normalized identifier, either concrete text or a
placeholder. -/
inductive NormID where
  | str (s : Str)
  | nonce (n : Nonce)
deriving DecidableEq, Repr

/-- `_normalize` on the value kinds of `ID`.  The Python function raises
`ValueError` on other value types, which the `ID` type excludes. -/
def normalizeId : ID → NormID
  | .nonce n => .nonce n
  | .bool b => .str (if b then "true".data else "false".data)
  | .markup m => .str ('<' :: (m ++ ['>']))
  | .str s => .str (normStr s)
  | .int n => .str (normStr (toString n).data)

/-- Lexicographic (code-point) comparison of two character lists, the model
of Python `str <= str`. -/
def strLE : Str → Str → Bool
  | [], _ => true
  | _ :: _, [] => false
  | a :: as, b :: bs => a < b || (a == b && strLE as bs)

/-- `_id_key` comparison: the tuple `(0, s)` for strings and `(1, id(n))`
for nonces, compared lexicographically; so any string ranks before any
nonce, strings compare as text, and nonces compare by identity token. -/
def idKeyLE : NormID → NormID → Bool
  | .str a, .str b => strLE a b
  | .str _, .nonce _ => true
  | .nonce _, .str _ => false
  | .nonce a, .nonce b => a.token ≤ b.token

/-- Insertion-ordered association list: the model of a Python `dict`. -/
abbrev Dict (α β : Type) := List (α × β)

/-- `m.get(k)`: first (and, for dicts built by these operations, only)
binding of `k`. -/
def dictGet [DecidableEq α] (k : α) : Dict α β → Option β
  | [] => none
  | (k', v) :: m => if k' = k then some v else dictGet k m

/-- `m[k] = v`: replace the binding in place when `k` is present, append it
otherwise (Python dicts keep insertion order). -/
def dictSet [DecidableEq α] (m : Dict α β) (k : α) (v : β) : Dict α β :=
  match m with
  | [] => [(k, v)]
  | (k', v') :: m => if k' = k then (k', v) :: m else (k', v') :: dictSet m k v

/-- `m.pop(k, None)` / `del m[k]`: drop the binding of `k` when present. -/
def dictPop [DecidableEq α] (k : α) : Dict α β → Dict α β
  | [] => []
  | (k', v) :: m => if k' = k then dictPop k m else (k', v) :: dictPop k m

/-- `target.update(source)` for Python dicts. -/
def dictUpdate [DecidableEq α] (t s : Dict α β) : Dict α β :=
  s.foldl (fun t kv => dictSet t kv.1 kv.2) t

/-- `_Attrs`: an attribute name to normalized value mapping. -/
abbrev Attrs := Dict Str NormID

/-- `_Roles`: a role name to attribute bundle mapping. -/
abbrev Roles := Dict NormID Attrs

/-- The errors the modelled operations can raise. -/
inductive Err where
  | reservedAttr
  | undefinedRole (role : NormID) (what : Str)
  | invalidCompass (cp : Str)
  | discNotAllowed
  | alreadyDefined
  | notDefined
  | strictMultigraph
  | cycle
  | outOfFuel
  | internal
deriving DecidableEq, Repr

/-- The `**attrs` argument of the mutation API: names paired with optional
values (`None` deletes). -/
abbrev AttrArgs := List (Str × Option ID)

/-- `_set_attrs`: apply attribute assignments to a target map.  A trailing
underscore is stripped from each name; assigning `role` is rejected unless
`permitRole`; a `None` value deletes. -/
def setAttrs (target : Attrs) (attrargs : AttrArgs) (permitRole : Bool) :
    Except Err Attrs :=
  attrargs.foldlM (fun tgt nv =>
    let name := if nv.1.getLastD ' ' = '_' then nv.1.dropLast else nv.1
    if !permitRole && name = "role".data then .error .reservedAttr
    else match nv.2 with
      | none => .ok (dictPop name tgt)
      | some v => .ok (dictSet tgt name (normalizeId v))) target

/-- `_integrate_role`: flatten the attributes of a possibly role-bearing
entity.  Role attributes fill in only names absent from the explicit set,
the `role` attribute itself is removed, and an undefined role raises an
error naming the referencing entity (`what`, extended with the entity's
identity when one is given). -/
def integrateRole (attrs : Attrs) (roles : Roles) (what : Str)
    (identity : Option Str) : Except Err Attrs :=
  match dictGet "role".data attrs with
  | none => .ok attrs
  | some roleName =>
    match dictGet roleName roles with
    | some roleAttrs =>
      .ok (dictPop "role".data (roleAttrs.foldl (fun acc kv =>
        if (dictGet kv.1 acc).isSome then acc else dictSet acc kv.1 kv.2) attrs))
    | none =>
      .error (.undefinedRole roleName
        (match identity with
         | some i => what ++ (' ' :: i)
         | none => what))

/-- `_update_roles`: merge role tables, the source having precedence,
attribute-wise for roles present on both sides. -/
def updateRoles (target source : Roles) : Roles :=
  source.foldl (fun tgt rv =>
    match dictGet rv.1 tgt with
    | some tattrs => dictSet tgt rv.1 (dictUpdate tattrs rv.2)
    | none => dictSet tgt rv.1 rv.2) target

/-- `_TEXT_ATTRS`: attributes whose values are general text, always emitted
quoted. -/
def textAttrs : List Str :=
  ["label".data, "headlabel".data, "taillabel".data, "xlabel".data,
   "comment".data]

/-- The public `Port` class. -/
structure Port where
  node : ID
  name : Option ID := none
  cp : Option Str := none
deriving DecidableEq, Repr

/-- An edge endpoint argument: either a bare identifier or a `Port`. -/
inductive PointArg where
  | id (i : ID)
  | port (p : Port)
deriving DecidableEq, Repr

/-- `_COMPASS_PT`. -/
def compassPts : List Str :=
  ["n".data, "ne".data, "e".data, "se".data, "s".data, "sw".data,
   "w".data, "nw".data, "c".data]

/-- `_NormPort`: normalized, validated edge endpoint.  `implicit` records
that the application supplied only an identifier, not a `Port`. -/
structure NormPort where
  node : NormID
  name : Option NormID
  cp : Option Str
  implicit : Bool
deriving DecidableEq, Repr

/-- `_NormPort.__init__`. -/
def mkNormPort : PointArg → Except Err NormPort
  | .id i => .ok ⟨normalizeId i, none, none, true⟩
  | .port p => do
    let cp ← match p.cp with
      | none => pure none
      | some c =>
        if c = "_".data then pure none
        else if compassPts.contains c then pure (some c)
        else .error (.invalidCompass c)
    .ok ⟨normalizeId p.node, p.name.map normalizeId, cp, false⟩

/-- `_NormDisc`: a normalized edge discriminant. -/
abbrev NormDisc := Option NormID

/-- `_EdgeKey`: normalized `(node1, node2, discriminant)` triples. -/
abbrev EdgeKey := NormID × NormID × NormDisc

/-- The `_Edge` record. -/
structure Edge where
  normport1 : NormPort
  normport2 : NormPort
  normdisc : NormDisc
  directed : Bool
  attrs : Attrs
deriving DecidableEq, Repr

/-- `_Edge.update_ports`: when amending, swap the stored sides if the first
argument names the second stored endpoint (non-directed only), then replace
each stored port whose argument was an explicit `Port`. -/
def updatePorts (e : Edge) (o1 o2 : NormPort) : Edge :=
  let pair := if o1.node ≠ e.normport1.node then (e.normport2, e.normport1)
              else (e.normport1, e.normport2)
  let p1 := if !o1.implicit then o1 else pair.1
  let p2 := if !o2.implicit then o2 else pair.2
  { e with normport1 := p1, normport2 := p2 }

/-- The mutable state of `_NonceResolver`: the avoid set (a list used only
through membership), the per-Nonce resolution cache, and the per-prefix
last sequence number. -/
structure RState where
  avoid : List Str
  nonceId : Dict Nonce Str
  pfxSeqno : Dict Str Nat
deriving DecidableEq, Repr

/-- The candidate `_normalize(f"{prefix}_{seqno}")` tried by the resolver. -/
def nonceCandidate (pfx : Str) (seqno : Nat) : Str :=
  normStr (pfx ++ '_' :: (Nat.repr seqno).data)

/-- The `while True` search loop of `_NonceResolver.resolve`, with explicit
fuel (the Python loop always terminates because candidates are distinct and
the avoid set is finite). -/
def nonceSearch (n : Nonce) : Nat → Nat → RState → Option (Str × RState)
  | 0, _, _ => none
  | fuel + 1, seqno, st =>
    let seqno := seqno + 1
    let candidate := nonceCandidate n.pfx seqno
    if st.avoid.contains candidate then nonceSearch n fuel seqno st
    else some (candidate,
      { avoid := candidate :: st.avoid,
        nonceId := st.nonceId ++ [(n, candidate)],
        pfxSeqno := dictSet st.pfxSeqno n.pfx seqno })

/-- `_NonceResolver.resolve`: strings resolve to themselves, an already
resolved Nonce to its cached text, and a fresh Nonce through the search
loop starting after the prefix's last assigned sequence number. -/
def resolve (fuel : Nat) (st : RState) : NormID → Option (Str × RState)
  | .str s => some (s, st)
  | .nonce n =>
    match dictGet n st.nonceId with
    | some r => some (r, st)
    | none => nonceSearch n fuel ((dictGet n.pfx st.pfxSeqno).getD 0) st

/-- `_NormPort.dot`: `node[:name][:cp]`, quoting a port name that collides
with a compass point. -/
def NormPort.dot (fuel : Nat) (p : NormPort) (st : RState) :
    Option (Str × RState) := do
  let (res, st) ← resolve fuel st p.node
  let (res, st) ←
    match p.name with
    | none => pure (res, st)
    | some nm => do
      let (nmr, st) ← resolve fuel st nm
      let nmr := if compassPts.contains nmr then preferQuoted nmr else nmr
      pure (res ++ ':' :: nmr, st)
  match p.cp with
  | none => pure (res, st)
  | some cp => pure (res ++ ':' :: cp, st)

/-- `_Edge.dot`: both ports joined by the connector token. -/
def Edge.dot (fuel : Nat) (e : Edge) (st : RState) : Option (Str × RState) := do
  let (s1, st) ← e.normport1.dot fuel st
  let (s2, st) ← e.normport2.dot fuel st
  pure (s1 ++ (if e.directed then " -> ".data else " -- ".data) ++ s2, st)

/-- `_NodeKey` / `_SubgraphKey`. -/
abbrev NodeKey := NormID

/-- The global node map of a root graph. -/
abbrev NodeMap := Dict NodeKey Attrs

/-- The global edge map of a root graph.  Python blocks alias the stored
`_Edge` objects; the model stores each edge once here and lets blocks refer
to it by key. -/
abbrev EdgeMap := Dict EdgeKey Edge

/-- A `Block`: scope-local default/direct attributes and the ordered lists
of the nodes, edges, and subgraphs defined through it.  Edges are referred
to by their global key (Python aliases the edge objects).  `subgraphmap` is
not modelled separately: it indexes the same `Block` objects that
`subgraphs` lists. -/
inductive Blk where
  | mk (graphid : Option NormID) (d_grapha d_nodea d_edgea grapha : Attrs)
      (nodes : List NodeKey) (edges : List EdgeKey) (subgraphs : List Blk)

def Blk.graphid : Blk → Option NormID
  | .mk g _ _ _ _ _ _ _ => g

def Blk.d_grapha : Blk → Attrs
  | .mk _ a _ _ _ _ _ _ => a

def Blk.d_nodea : Blk → Attrs
  | .mk _ _ a _ _ _ _ _ => a

def Blk.d_edgea : Blk → Attrs
  | .mk _ _ _ a _ _ _ _ => a

def Blk.grapha : Blk → Attrs
  | .mk _ _ _ _ a _ _ _ => a

def Blk.nodes : Blk → List NodeKey
  | .mk _ _ _ _ _ n _ _ => n

def Blk.edges : Blk → List EdgeKey
  | .mk _ _ _ _ _ _ e _ => e

def Blk.subgraphs : Blk → List Blk
  | .mk _ _ _ _ _ _ _ s => s

/-- The root-graph-owned state of a `Dot` object other than its theme
reference: flags, comment, role tables, global node/edge maps, the root
block, and the arena counter from which fresh `Nonce` identity tokens are
drawn. -/
structure GraphData where
  directed : Bool
  strict : Bool
  multigraph : Bool
  comment : Option Str
  graphroles : Roles
  noderoles : Roles
  edgeroles : Roles
  nodemap : NodeMap
  edgemap : EdgeMap
  blk : Blk
  nonceCtr : Nat

/-- A `Dot` object together with its theme chain.  `use_theme` guarantees
the chain is acyclic, which the inductive structure reflects. -/
inductive Dot where
  | mk (data : GraphData) (theme : Option Dot)

def Dot.data : Dot → GraphData
  | .mk d _ => d

def Dot.theme : Dot → Option Dot
  | .mk _ t => t

/-- `Dot.__init__`: rejects `strict` together with `multigraph`; starts
with empty role tables, node and edge maps, no theme, and a normalized
graph identifier. -/
def mkDot (directed strict multigraph : Bool) (id : Option ID)
    (comment : Option Str) : Except Err Dot :=
  if multigraph && strict then .error .strictMultigraph
  else .ok (.mk
    { directed := directed
      strict := strict
      multigraph := multigraph
      comment := comment
      graphroles := []
      noderoles := []
      edgeroles := []
      nodemap := []
      edgemap := []
      blk := .mk (id.map normalizeId) [] [] [] [] [] [] []
      nonceCtr := 0 }
    none)

/-- `_Mien`: the merged heritable view of a graph and its theme chain. -/
structure Mien where
  d_grapha : Attrs
  d_nodea : Attrs
  d_edgea : Attrs
  grapha : Attrs
  graphroles : Roles
  noderoles : Roles
  edgeroles : Roles
deriving DecidableEq, Repr

/-- The stack `[dot, theme, theme.theme, ...]` built by `_Mien.__init__`. -/
def themeStack : Dot → List GraphData
  | .mk data none => [data]
  | .mk data (some t) => data :: themeStack t

/-- `_Mien.__init__`: with no theme, the graph's own maps; otherwise the
stack merged farthest-first so that nearer entries win. -/
def mienOf (d : Dot) : Mien :=
  match d with
  | .mk data none =>
    ⟨data.blk.d_grapha, data.blk.d_nodea, data.blk.d_edgea, data.blk.grapha,
     data.graphroles, data.noderoles, data.edgeroles⟩
  | .mk _ (some _) =>
    (themeStack d).reverse.foldl (fun m g =>
      ⟨dictUpdate m.d_grapha g.blk.d_grapha,
       dictUpdate m.d_nodea g.blk.d_nodea,
       dictUpdate m.d_edgea g.blk.d_edgea,
       dictUpdate m.grapha g.blk.grapha,
       updateRoles m.graphroles g.graphroles,
       updateRoles m.noderoles g.noderoles,
       updateRoles m.edgeroles g.edgeroles⟩)
      ⟨[], [], [], [], [], [], []⟩

mutual
/-- The `add_block` part of `_collect_ids`: a block's id, default and
direct attribute values, recursively over subgraphs. -/
def blkIds : Blk → List (Option NormID)
  | .mk gid dg dn de ga _ _ subs =>
    gid :: (dg.map (fun kv => some kv.2) ++ dn.map (fun kv => some kv.2) ++
      de.map (fun kv => some kv.2) ++ ga.map (fun kv => some kv.2) ++
      blkListIds subs)

/-- Companion of `blkIds` for the recursion over a block's subgraphs. -/
def blkListIds : List Blk → List (Option NormID)
  | [] => []
  | b :: bs => blkIds b ++ blkListIds bs
end

/-- The values of every attribute bundle of a role table. -/
def roleIds (roles : Roles) : List (Option NormID) :=
  (roles.map (fun rv => rv.2.map (fun kv => some kv.2))).flatten

/-- `_collect_ids`: every `_NormID` (or `None`) appearing in a Dot object
and its mien — the graph id, all merged default/direct/role attribute
values, node keys and attribute values, edge endpoint nodes, port names and
attribute values, and recursively each subgraph's id and attribute maps. -/
def collectIds (d : Dot) (m : Mien) : List (Option NormID) :=
  [d.data.blk.graphid] ++
  m.d_grapha.map (fun kv => some kv.2) ++
  m.d_nodea.map (fun kv => some kv.2) ++
  m.d_edgea.map (fun kv => some kv.2) ++
  m.grapha.map (fun kv => some kv.2) ++
  roleIds m.graphroles ++ roleIds m.noderoles ++ roleIds m.edgeroles ++
  (d.data.nodemap.map (fun nv =>
    some nv.1 :: nv.2.map (fun kv => some kv.2))).flatten ++
  (d.data.edgemap.map (fun ev =>
    [some ev.2.normport1.node, ev.2.normport1.name,
     some ev.2.normport2.node, ev.2.normport2.name] ++
    ev.2.attrs.map (fun kv => some kv.2))).flatten ++
  blkListIds d.data.blk.subgraphs

/-- `_NonceResolver.__init__`: the avoid set is every string identifier
collected from the Dot object and its mien. -/
def initResolver (d : Dot) (m : Mien) : RState :=
  { avoid := (collectIds d m).filterMap (fun x =>
      match x with
      | some (.str s) => some s
      | _ => none)
    nonceId := []
    pfxSeqno := [] }

/-- Lift the fuel-limited resolver into the serializer's error monad. -/
def toExc : Option α → Except Err α
  | some a => .ok a
  | none => .error .outOfFuel

/-- Model of the CPython default `repr` of a `Nonce` (used only inside
error messages); deterministic in the identity token. -/
def nonceRepr (n : Nonce) : Str :=
  "<Nonce ".data ++ (Nat.repr n.token).data ++ ">".data

/-- `_id_debug`: a normalized id rendered for an error message. -/
def idDebug : NormID → Str
  | .str s => s
  | .nonce n => nonceRepr n

/-- Model of the `_Edge` identity rendering used in role error messages
(the Python text interpolates object reprs). -/
def edgeDebug (e : Edge) : Str :=
  "_Edge<".data ++ idDebug e.normport1.node ++ ",".data ++
    idDebug e.normport2.node ++ ">".data

/-- The nested `statement` helper of `Block._statements`: the indented
statement text, plus a bracketed attribute list when `attrs` is
non-empty (values resolved in order, text attributes preferably quoted). -/
def statementStr (pfxStr s : Str) (attrs : Attrs) (fuel : Nat) (rs : RState) :
    Except Err (Str × RState) :=
  if attrs.isEmpty then .ok (pfxStr ++ s, rs)
  else do
    let (pieces, rs) ← attrs.foldlM (fun acc kv => do
      let (v, rs) ← toExc (resolve fuel acc.2 kv.2)
      let v := if textAttrs.contains kv.1 then preferQuoted v else v
      .ok (acc.1 ++ [kv.1 ++ '=' :: v], rs)) (([] : List Str), rs)
    .ok (pfxStr ++ s ++ " [".data ++ List.intercalate [' '] pieces ++ "]".data,
         rs)

/-- The nested `blankline` helper: append an empty separator line unless
the previous line (the enclosing header when the block is empty so far) is
already blank, counting the separators added. -/
def blanklineF (acc : List Str) (bl : Nat) : List Str × Nat :=
  if acc.getLastD ['#'] ≠ [] then (acc ++ [[]], bl + 1) else (acc, bl)

mutual
/-- `Block._statements`: the block's statement lines (without the
enclosing header/closer, which the caller emits), threaded through the
resolver state.  Follows the source: default-attribute statements (from
the mien at the root, the block's own maps otherwise), role-merged direct
graph attributes except `label`, node statements, edge statements, child
subgraphs, the `label` last, then the blank-line collapse. -/
def stmtsBlk (mien : Mien) (nodemap : NodeMap) (edgemap : EdgeMap)
    (fuel : Nat) (isRoot : Bool) (indent : Nat) (blk : Blk) (rs : RState) :
    Except Err (List Str × RState) :=
  match blk with
  | .mk gid bdga bdna bdea bga nodes edges subs => do
    let pfxStr := (List.replicate indent "    ".data).flatten
    let (acc, bl) := blanklineF [] 0
    let dga := if isRoot then mien.d_grapha else bdga
    let dna := if isRoot then mien.d_nodea else bdna
    let dea := if isRoot then mien.d_edgea else bdea
    let (acc, rs) ←
      if dga.isEmpty then pure (acc, rs) else do
        let (line, rs) ← statementStr pfxStr "graph".data dga fuel rs
        pure (acc ++ [line], rs)
    let (acc, rs) ←
      if dna.isEmpty then pure (acc, rs) else do
        let (line, rs) ← statementStr pfxStr "node".data dna fuel rs
        pure (acc ++ [line], rs)
    let (acc, rs) ←
      if dea.isEmpty then pure (acc, rs) else do
        let (line, rs) ← statementStr pfxStr "edge".data dea fuel rs
        pure (acc ++ [line], rs)
    let grapha ← integrateRole (if isRoot then mien.grapha else bga)
      mien.graphroles "graph".data (gid.map idDebug)
    let (acc, bl) := blanklineF acc bl
    let (acc, rs) ← grapha.foldlM (fun st kv =>
      if kv.1 = "label".data then pure st else do
        let (v, rs) ← toExc (resolve fuel st.2 kv.2)
        let v := if textAttrs.contains kv.1 then preferQuoted v else v
        pure (st.1 ++ [pfxStr ++ kv.1 ++ '=' :: v], rs)) (acc, rs)
    let (acc, bl) := blanklineF acc bl
    let (acc, rs) ← nodes.foldlM (fun st nk => do
      let attrs ← integrateRole ((dictGet nk nodemap).getD []) mien.noderoles
        "node".data (some (idDebug nk))
      let (nkr, rs) ← toExc (resolve fuel st.2 nk)
      let (line, rs) ← statementStr pfxStr nkr attrs fuel rs
      pure (st.1 ++ [line], rs)) (acc, rs)
    let (acc, bl) := blanklineF acc bl
    let (acc, rs) ← edges.foldlM (fun st ek => do
      match dictGet ek edgemap with
      | none => .error .internal
      | some e => do
        let attrs ← integrateRole e.attrs mien.edgeroles "edge".data
          (some (edgeDebug e))
        let (es, rs) ← toExc (e.dot fuel st.2)
        let (line, rs) ← statementStr pfxStr es attrs fuel rs
        pure (st.1 ++ [line], rs)) (acc, rs)
    let (acc, bl, rs) ← stmtsSubs mien nodemap edgemap fuel indent subs acc bl
      rs
    let (acc, bl, rs) ←
      if (dictGet "label".data grapha).isSome then do
        let (acc, bl) := blanklineF acc bl
        let (lv, rs) ← toExc (resolve fuel rs
          ((dictGet "label".data grapha).getD (.str [])))
        pure (acc ++ [pfxStr ++ "label=".data ++ preferQuoted lv], bl, rs)
      else pure (acc, bl, rs)
    let (acc, bl) :=
      if acc.getLastD ['#'] = [] then (acc.dropLast, bl - 1) else (acc, bl)
    let acc := if acc.length - bl ≤ 8 || bl = 1 then acc.filter (· ≠ []) else acc
    pure (acc, rs)

/-- The `for subgraph in self.subgraphs` loop of `Block._statements`:
separator, `subgraph [id] {` header, recursive body one level deeper,
closing brace. -/
def stmtsSubs (mien : Mien) (nodemap : NodeMap) (edgemap : EdgeMap)
    (fuel : Nat) (indent : Nat) (subs : List Blk) (acc : List Str) (bl : Nat)
    (rs : RState) : Except Err (List Str × Nat × RState) :=
  match subs with
  | [] => .ok (acc, bl, rs)
  | sub :: rest => do
    let pfxStr := (List.replicate indent "    ".data).flatten
    let (acc, bl) := blanklineF acc bl
    let (hdr, rs) ←
      match sub.graphid with
      | none => .ok (pfxStr ++ "subgraph ".data ++ "\x7b".data, rs)
      | some g => do
        let (gr, rs) ← toExc (resolve fuel rs g)
        .ok (pfxStr ++ "subgraph ".data ++ gr ++ " \x7b".data, rs)
    let (inner, rs) ← stmtsBlk mien nodemap edgemap fuel false (indent + 1)
      sub rs
    stmtsSubs mien nodemap edgemap fuel indent rest
      (acc ++ [hdr] ++ inner ++ [pfxStr ++ "\x7d".data]) bl rs
end

/-- `str.splitlines` (modelling the `\n`, `\r\n`, and `\r` terminators). -/
def splitLinesGo (cur : Str) : Str → List Str
  | [] => [cur.reverse]
  | '\r' :: '\n' :: rest =>
    cur.reverse :: (if rest.isEmpty then [] else splitLinesGo [] rest)
  | '\n' :: rest =>
    cur.reverse :: (if rest.isEmpty then [] else splitLinesGo [] rest)
  | '\r' :: rest =>
    cur.reverse :: (if rest.isEmpty then [] else splitLinesGo [] rest)
  | c :: rest => splitLinesGo (c :: cur) rest

/-- `str.splitlines`. -/
def splitLines (s : Str) : List Str :=
  if s.isEmpty then [] else splitLinesGo [] s

/-- `Dot.__str__`: the DOT language representation — comment lines, the
`strict`/`digraph`/`graph` header with the resolved graph id, the root
block's statements at indent 1, the closing brace — joined by newlines.
The mien and the resolver are built afresh on every call. -/
def dotStr (fuel : Nat) (d : Dot) : Except Err Str := do
  let commentLines :=
    match d.data.comment with
    | none => []
    | some c =>
      if c.isEmpty then []
      else (splitLines c).map (fun l => "// ".data ++ l) ++ [[]]
  let mien := mienOf d
  let rs := initResolver d mien
  let (gid, rs) ←
    match d.data.blk.graphid with
    | none => .ok (([] : Str), rs)
    | some g => do
      let (gr, rs) ← toExc (resolve fuel rs g)
      .ok (gr ++ [' '], rs)
  let hdr := (if d.data.strict then "strict ".data else []) ++
    (if d.data.directed then "digraph ".data else "graph ".data) ++
    gid ++ "\x7b".data
  let (body, _) ← stmtsBlk mien d.data.nodemap d.data.edgemap fuel true 1
    d.data.blk rs
  .ok (List.intercalate ['\n'] (commentLines ++ [hdr] ++ body ++
    ["\x7d\n".data]))

/-- Append a node key to a block's definition-order node list
(`self.nodes.append(key)`). -/
def Blk.pushNode : Blk → NodeKey → Blk
  | .mk g a b c e n ed s, k => .mk g a b c e (n ++ [k]) ed s

/-- Append an edge key to a block's definition-order edge list
(`self.edges.append(edge)`; the model refers to the shared edge by key). -/
def Blk.pushEdge : Blk → EdgeKey → Blk
  | .mk g a b c e n ed s, k => .mk g a b c e n (ed ++ [k]) s

/-- `Block.node` called on the root block: define a node or amend its
attributes; the key joins the block's node list only on first
definition. -/
def nodeOp (d : Dot) (id : ID) (attrs : AttrArgs) : Except Err Dot := do
  let key := normalizeId id
  let present := (dictGet key d.data.nodemap).isSome
  let cur ← setAttrs ((dictGet key d.data.nodemap).getD []) attrs true
  .ok (.mk { d.data with
    nodemap := dictSet d.data.nodemap key cur
    blk := if present then d.data.blk else d.data.blk.pushNode key } d.theme)

/-- `Block.graph_default` on the root block. -/
def graphDefaultOp (d : Dot) (attrs : AttrArgs) : Except Err Dot := do
  match d.data.blk with
  | .mk g a b c e n ed s => do
    let a ← setAttrs a attrs false
    .ok (.mk { d.data with blk := .mk g a b c e n ed s } d.theme)

/-- `Block.node_default` on the root block. -/
def nodeDefaultOp (d : Dot) (attrs : AttrArgs) : Except Err Dot := do
  match d.data.blk with
  | .mk g a b c e n ed s => do
    let b ← setAttrs b attrs false
    .ok (.mk { d.data with blk := .mk g a b c e n ed s } d.theme)

/-- `Block.edge_default` on the root block. -/
def edgeDefaultOp (d : Dot) (attrs : AttrArgs) : Except Err Dot := do
  match d.data.blk with
  | .mk g a b c e n ed s => do
    let c ← setAttrs c attrs false
    .ok (.mk { d.data with blk := .mk g a b c e n ed s } d.theme)

/-- `Block.graph` on the root block (direct graph attributes; `role`
permitted). -/
def graphOp (d : Dot) (attrs : AttrArgs) : Except Err Dot := do
  match d.data.blk with
  | .mk g a b c e n ed s => do
    let e ← setAttrs e attrs true
    .ok (.mk { d.data with blk := .mk g a b c e n ed s } d.theme)

/-- `Dot.node_role`: define or amend a node role (role tables are
defaultdicts; the role name is normalized). -/
def nodeRoleOp (d : Dot) (role : ID) (attrs : AttrArgs) : Except Err Dot := do
  let r := normalizeId role
  let cur ← setAttrs ((dictGet r d.data.noderoles).getD []) attrs false
  .ok (.mk { d.data with noderoles := dictSet d.data.noderoles r cur } d.theme)

/-- `Dot.graph_role`. -/
def graphRoleOp (d : Dot) (role : ID) (attrs : AttrArgs) : Except Err Dot := do
  let r := normalizeId role
  let cur ← setAttrs ((dictGet r d.data.graphroles).getD []) attrs false
  .ok (.mk { d.data with graphroles := dictSet d.data.graphroles r cur } d.theme)

/-- `Dot.edge_role`. -/
def edgeRoleOp (d : Dot) (role : ID) (attrs : AttrArgs) : Except Err Dot := do
  let r := normalizeId role
  let cur ← setAttrs ((dictGet r d.data.edgeroles).getD []) attrs false
  .ok (.mk { d.data with edgeroles := dictSet d.data.edgeroles r cur } d.theme)

/-- `Block._edge_preamble`: normalize the endpoints, validate and
normalize the discriminant (forbidden outside multigraphs, a fresh `__D`
Nonce when omitted on a multigraph — the model draws its identity token
from the arena counter), and build the edge key, sorting the node pair by
`_id_key` for non-directed graphs. -/
def edgePreamble (d : Dot) (p1 p2 : PointArg) (disc : Option ID) :
    Except Err (EdgeKey × NormPort × NormPort × NormDisc × Dot) := do
  let normport1 ← mkNormPort p1
  let normport2 ← mkNormPort p2
  let (normdisc, d) ←
    match disc with
    | some dv =>
      if !d.data.multigraph then .error .discNotAllowed
      else .ok (some (normalizeId dv), d)
    | none =>
      if d.data.multigraph then
        .ok (some (.nonce ⟨d.data.nonceCtr, "__D".data⟩),
          .mk { d.data with nonceCtr := d.data.nonceCtr + 1 } d.theme)
      else .ok (none, d)
  let node1 := normport1.node
  let node2 := normport2.node
  let key := if d.data.directed || idKeyLE node1 node2 then
      (node1, node2, normdisc)
    else (node2, node1, normdisc)
  .ok (key, normport1, normport2, normdisc, d)

/-- `Block._edge` called on the root block: define or amend an edge,
enforcing the defined/not-defined constraints of `edge_define` /
`edge_update`. -/
def edgeOp (d : Dot) (p1 p2 : PointArg) (disc : Option ID)
    (attrargs : AttrArgs) (mustExist mustNotExist : Bool) : Except Err Dot := do
  let (key, normport1, normport2, normdisc, d) ← edgePreamble d p1 p2 disc
  match dictGet key d.data.edgemap with
  | none =>
    if mustExist then .error .notDefined
    else do
      let attrs ← setAttrs [] attrargs true
      .ok (.mk { d.data with
        edgemap := d.data.edgemap ++
          [(key, ⟨normport1, normport2, normdisc, d.data.directed, attrs⟩)]
        blk := d.data.blk.pushEdge key } d.theme)
  | some e =>
    if mustNotExist then .error .alreadyDefined
    else do
      let e := updatePorts e normport1 normport2
      let attrs ← setAttrs e.attrs attrargs true
      .ok (.mk { d.data with
        edgemap := dictSet d.data.edgemap key { e with attrs := attrs } }
        d.theme)

/-- `Block.edge_is_defined` on the root block. -/
def edgeIsDefined (d : Dot) (p1 p2 : PointArg) (disc : Option ID) :
    Except Err Bool := do
  let (key, _, _, _, d) ← edgePreamble d p1 p2 disc
  .ok (dictGet key d.data.edgemap).isSome

/-- `Dot.use_theme` at the value level: attach (or clear) the theme of a
Dot value.  The identity-level cycle check of `use_theme` is modelled
separately on a theme store (see `useTheme`). -/
def withTheme (d : Dot) (t : Option Dot) : Dot :=
  .mk d.data t

/-- Spec-side (§3) word character: letter, digit, or underscore. -/
def specWordChar (c : Char) : Bool := c.isAlpha || c.isDigit || c = '_'

/-- Spec-side simple identifier: letters/digits/underscore, not starting
with a digit. -/
def specWordId (s : Str) : Bool :=
  !s.isEmpty && s.all specWordChar && !(s.headD '0').isDigit

/-- Character allowed in the body of a numeric literal. -/
def specDigitDot (c : Char) : Bool := c.isDigit || c = '.'

/-- Number of decimal points in a string. -/
def dotCount (s : Str) : Nat := (s.filter (fun c => c = '.')).length

/-- Spec-side signed/unsigned numeric literal: an optional leading minus,
then a non-empty body of digits with at most one decimal point and at
least one digit. -/
def specNumericLit (s : Str) : Bool :=
  let b := if s.headD ' ' = '-' then s.tail else s
  !b.isEmpty && b.all specDigitDot && (dotCount b ≤ 1 : Bool) &&
    b.any Char.isDigit

/-- The spec's simple-identifier grammar (§3): a word identifier or a
numeric literal. -/
def specSimpleId (s : Str) : Bool := specWordId s || specNumericLit s

/-- Spec-side escaping of one character: backslash and double quote get a
backslash, a line feed becomes `\n`, anything else is unchanged. -/
def specEscChar (c : Char) : Str :=
  if c = '\\' then ['\\', '\\']
  else if c = '"' then ['\\', '"']
  else if c = '\n' then ['\\', 'n']
  else [c]

/-- Spec-side single-pass escaping: CR LF collapses to `\n`, every other
character escapes independently (a lone CR is kept). -/
def specEscape : Str → Str
  | [] => []
  | [c] => specEscChar c
  | c :: d :: r =>
    if c = '\r' ∧ d = '\n' then '\\' :: 'n' :: specEscape r
    else specEscChar c ++ specEscape (d :: r)

def stripUnd (n : Str) : Str :=
  if n.getLastD ' ' = '_' then n.dropLast else n

/-- Identity-level model of the theme graph for `use_theme`: root graphs
are integer identities, each mapped to its current theme identity (if
any).  This carries the object-identity aspect (`current is self`) that
the value-level `Dot` tree cannot express. -/
abbrev ThemeStore := Dict Nat (Option Nat)

/-- The current theme reference of a graph in the store. -/
def themeOf (st : ThemeStore) (g : Nat) : Option Nat := (dictGet g st).getD none

/-- The `while current is not None` loop of `Dot.use_theme`: walk the
theme chain from `current`, reporting `true` when `self` is encountered
(a cycle would form) and `false` when the chain ends, with explicit
fuel. -/
def cycleScan (st : ThemeStore) (self : Nat) : Nat → Nat → Option Bool
  | 0, _ => none
  | fuel + 1, current =>
    if current = self then some true
    else match themeOf st current with
      | none => some false
      | some nxt => cycleScan st self fuel nxt

/-- `Dot.use_theme`: reject a theme whose chain reaches `self`, otherwise
assign it.  The theme field is written only after the scan succeeds, as in
the source. -/
def useTheme (fuel : Nat) (st : ThemeStore) (self : Nat)
    (theme : Option Nat) : Except Err ThemeStore :=
  match theme with
  | none => .ok (dictSet st self none)
  | some t =>
    match cycleScan st self fuel t with
    | some true => .error .cycle
    | some false => .ok (dictSet st self (some t))
    | none => .error .outOfFuel

/-- The observable effect of a `use_theme` call: the (possibly unchanged)
store and the raised error, if any. -/
def useThemeRun (fuel : Nat) (st : ThemeStore) (self : Nat)
    (theme : Option Nat) : ThemeStore × Option Err :=
  match useTheme fuel st self theme with
  | .ok st' => (st', none)
  | .error e => (st, some e)

/-- `InOrbitN st b a k`: graph `a` appears in the theme orbit of `b`
(i.e. `b` is `a` or transitively uses `a` as a theme) within `k` steps. -/
inductive InOrbitN (st : ThemeStore) : Nat → Nat → Nat → Prop
  | refl (b : Nat) : InOrbitN st b b 0
  | step (b c a k : Nat) : themeOf st b = some c → InOrbitN st c a k →
      InOrbitN st b a (k + 1)

/-- `Nonce.__deepcopy__`: returns the identical object — in the model,
the same identity token. -/
def nonceDeepcopy (n : Nonce) : Nonce := n

/-- Deepcopy of a normalized identifier: text by value, placeholders via
`Nonce.__deepcopy__`. -/
def normIdDeepcopy : NormID → NormID
  | .str s => .str s
  | .nonce n => .nonce (nonceDeepcopy n)

def attrsDeepcopy (a : Attrs) : Attrs :=
  a.map (fun kv => (kv.1, normIdDeepcopy kv.2))

def rolesDeepcopy (r : Roles) : Roles :=
  r.map (fun rv => (normIdDeepcopy rv.1, attrsDeepcopy rv.2))

/-- `_NormPort.__deepcopy__` returns self. -/
def normPortDeepcopy (p : NormPort) : NormPort := p

def edgeKeyDeepcopy (k : EdgeKey) : EdgeKey :=
  (normIdDeepcopy k.1, normIdDeepcopy k.2.1, k.2.2.map normIdDeepcopy)

def edgeDeepcopy (e : Edge) : Edge :=
  ⟨normPortDeepcopy e.normport1, normPortDeepcopy e.normport2,
   e.normdisc.map normIdDeepcopy, e.directed, attrsDeepcopy e.attrs⟩

mutual
def blkDeepcopy : Blk → Blk
  | .mk gid dg dn de ga nodes edges subs =>
    .mk (gid.map normIdDeepcopy) (attrsDeepcopy dg) (attrsDeepcopy dn)
      (attrsDeepcopy de) (attrsDeepcopy ga) (nodes.map normIdDeepcopy)
      (edges.map edgeKeyDeepcopy) (blkListDeepcopy subs)

def blkListDeepcopy : List Blk → List Blk
  | [] => []
  | b :: bs => blkDeepcopy b :: blkListDeepcopy bs
end

/-- `Dot.__deepcopy__`: deep-copies every owned field but re-attaches the
*same* theme reference. -/
def dotDeepcopy (d : Dot) : Dot :=
  .mk
    { directed := d.data.directed
      strict := d.data.strict
      multigraph := d.data.multigraph
      comment := d.data.comment
      graphroles := rolesDeepcopy d.data.graphroles
      noderoles := rolesDeepcopy d.data.noderoles
      edgeroles := rolesDeepcopy d.data.edgeroles
      nodemap := d.data.nodemap.map
        (fun nv => (normIdDeepcopy nv.1, attrsDeepcopy nv.2))
      edgemap := d.data.edgemap.map
        (fun ev => (edgeKeyDeepcopy ev.1, edgeDeepcopy ev.2))
      blk := blkDeepcopy d.data.blk
      nonceCtr := d.data.nonceCtr }
    d.theme

def idB : ID → Nat → Prop
  | .nonce nn, n => nn.token < n
  | _, _ => True

def pointB : PointArg → Nat → Prop
  | .id i, n => idB i n
  | .port p, n => idB p.node n

def discB : Option ID → Nat → Prop
  | none, _ => True
  | some dv, n => idB dv n

def normIdB : NormID → Nat → Prop
  | .str _, _ => True
  | .nonce nn, n => nn.token < n

def keyB (k : EdgeKey) (n : Nat) : Prop :=
  normIdB k.1 n ∧ normIdB k.2.1 n ∧ ∀ x, k.2.2 = some x → normIdB x n

def EdgeInv (d : Dot) : Prop :=
  (d.data.edgemap.map Prod.fst).Nodup ∧
  (d.data.multigraph = false → ∀ k ∈ d.data.edgemap.map Prod.fst,
    k.2.2 = (none : NormDisc)) ∧
  (∀ k ∈ d.data.edgemap.map Prod.fst, keyB k d.data.nonceCtr)

inductive EdgeSteps : Dot → Dot → Prop
  | refl (d : Dot) : EdgeSteps d d
  | step (d d' d'' : Dot) (p1 p2 : PointArg) (disc : Option ID)
      (attrs : AttrArgs) (me mne : Bool) :
      EdgeSteps d d' →
      pointB p1 d'.data.nonceCtr → pointB p2 d'.data.nonceCtr →
      discB disc d'.data.nonceCtr →
      edgeOp d' p1 p2 disc attrs me mne = .ok d'' →
      EdgeSteps d d''

def wEdgeA : NormPort := ⟨.str "a".data, none, none, true⟩

def wEdgeB : NormPort := ⟨.str "b".data, none, none, true⟩

def wPK : EdgeKey := (.str "a".data, .str "b".data, none)

def wP0 : Dot :=
  .mk ⟨false, false, false, none, [], [], [], [], [],
    .mk none [] [] [] [] [] [] [], 0⟩ none

def wP1 : Dot :=
  .mk ⟨false, false, false, none, [], [], [], [],
    [(wPK, ⟨wEdgeA, wEdgeB, none, false, []⟩)],
    .mk none [] [] [] [] [] [wPK] [], 0⟩ none

def wMK : EdgeKey := (.str "a".data, .str "b".data, some (.nonce ⟨0, "__D".data⟩))

def wM0 : Dot :=
  .mk ⟨false, false, true, none, [], [], [], [], [],
    .mk none [] [] [] [] [] [] [], 0⟩ none

def wM1 : Dot :=
  .mk ⟨false, false, true, none, [], [], [], [],
    [(wMK, ⟨wEdgeA, wEdgeB, some (.nonce ⟨0, "__D".data⟩), false, []⟩)],
    .mk none [] [] [] [] [] [wMK] [], 1⟩ none

def wXK : EdgeKey := (.str "a".data, .str "b".data, some (.str "x".data))

def wX1 : Dot :=
  .mk ⟨false, false, true, none, [], [], [], [],
    [(wXK, ⟨wEdgeA, wEdgeB, some (.str "x".data), false, []⟩)],
    .mk none [] [] [] [] [] [wXK] [], 0⟩ none

def SeqnoSound (st : RState) : Prop :=
  ∀ p k, 1 ≤ k → k ≤ (dictGet p st.pfxSeqno).getD 0 →
    nonceCandidate p k ∈ st.avoid

inductive RReach (init : RState) : RState → Prop
  | refl : RReach init init
  | step (st st' : RState) (x : NormID) (fuel : Nat) (r : Str) :
      RReach init st → resolve fuel st x = some (r, st') → RReach init st'

def RInv (init st : RState) : Prop :=
  SeqnoSound st ∧ ∃ assigned : List Str,
    st.avoid = assigned ++ init.avoid ∧
    st.nonceId.map Prod.snd = init.nonceId.map Prod.snd ++ assigned.reverse

def wC1d0 : Dot :=
  .mk ⟨false, false, false, none, [], [], [], [], [],
    .mk none [] [] [] [] [] [] [], 0⟩ none

def wC1d1 : Dot :=
  .mk ⟨false, false, false, none, [], [], [], [(.str "_nonce_1".data, [])],
    [], .mk none [] [] [] [] [.str "_nonce_1".data] [] [], 0⟩ none

def wC1d2 : Dot :=
  .mk ⟨false, false, false, none, [], [], [],
    [(.str "_nonce_1".data, []), (.nonce ⟨0, "_nonce".data⟩, [])], [],
    .mk none [] [] [] []
      [.str "_nonce_1".data, .nonce ⟨0, "_nonce".data⟩] [] [], 0⟩ none

def wC1c1 : Dot :=
  .mk ⟨false, false, false, none, [], [], [],
    [(.nonce ⟨0, "with space".data⟩, [])], [],
    .mk none [] [] [] [] [.nonce ⟨0, "with space".data⟩] [] [], 0⟩ none

abbrev GraphStore := Dict Nat (GraphData × Option Nat)

def materialize (st : GraphStore) : Nat → Nat → Option Dot
  | 0, _ => none
  | fuel + 1, g =>
    match dictGet g st with
    | none => none
    | some (data, none) => some (.mk data none)
    | some (data, some t) =>
      (materialize st fuel t).map (fun td => .mk data (some td))

def mienUpd (m : Mien) (g : GraphData) : Mien :=
  ⟨dictUpdate m.d_grapha g.blk.d_grapha,
   dictUpdate m.d_nodea g.blk.d_nodea,
   dictUpdate m.d_edgea g.blk.d_edgea,
   dictUpdate m.grapha g.blk.grapha,
   updateRoles m.graphroles g.graphroles,
   updateRoles m.noderoles g.noderoles,
   updateRoles m.edgeroles g.edgeroles⟩

def chainGet (src : GraphData → Attrs) (k : Str) : List GraphData → Option NormID
  | [] => none
  | g :: gs =>
    match dictGet k (src g) with
    | some v => some v
    | none => chainGet src k gs

def roleGet (R : Roles) (r : NormID) (a : Str) : Option NormID :=
  match dictGet r R with
  | some b => dictGet a b
  | none => none

def chainRoleGet (src : GraphData → Roles) (r : NormID) (a : Str) :
    List GraphData → Option NormID
  | [] => none
  | g :: gs =>
    match roleGet (src g) r a with
    | some v => some v
    | none => chainRoleGet src r a gs

abbrev NodupChain (d : Dot) : Prop :=
  ∀ g ∈ themeStack d,
    ((g.blk.d_grapha.map Prod.fst).Nodup) ∧
    ((g.blk.d_nodea.map Prod.fst).Nodup) ∧
    ((g.blk.d_edgea.map Prod.fst).Nodup) ∧
    ((g.blk.grapha.map Prod.fst).Nodup) ∧
    ((g.graphroles.map Prod.fst).Nodup ∧
      ∀ rv ∈ g.graphroles, ((rv.2.map Prod.fst : List Str)).Nodup) ∧
    ((g.noderoles.map Prod.fst).Nodup ∧
      ∀ rv ∈ g.noderoles, ((rv.2.map Prod.fst : List Str)).Nodup) ∧
    ((g.edgeroles.map Prod.fst).Nodup ∧
      ∀ rv ∈ g.edgeroles, ((rv.2.map Prod.fst : List Str)).Nodup)

def wC4dgE : GraphData :=
  ⟨false, false, false, none, [], [], [], [], [],
    .mk none [] [] [] [] [] [] [], 0⟩

def wC4dtB : GraphData :=
  ⟨false, false, false, none, [], [], [], [], [],
    .mk none [("color".data, .str "blue".data)] [] [] [] [] [] [], 0⟩

def wC4dtG : GraphData :=
  ⟨false, false, false, none, [], [], [], [], [],
    .mk none [("color".data, .str "green".data)] [] [] [] [] [] [], 0⟩

def wC4dgR : GraphData :=
  ⟨false, false, false, none, [], [], [], [], [],
    .mk none [("color".data, .str "red".data)] [] [] [] [] [] [], 0⟩

def wC4g : Dot := .mk wC4dgR (some (.mk wC4dtB none))

def wC4st : GraphStore := [(0, (wC4dgE, some 1)), (1, (wC4dtB, none))]

example : normStr "simple123".data = "simple123".data := by decide

example : normStr "this is quoted".data = "\"this is quoted\"".data := by decide

example : normStr "graph".data = "\"graph\"".data := by decide

example : normStr "1.25".data = "1.25".data := by decide

example : normStr "-.5".data = "-.5".data := by decide

example : normStr "".data = "\"\"".data := by decide

theorem digit_not_alpha (c : Char) (h : c.isDigit = true) : c.isAlpha = false := by
  unfold Char.isDigit at h
  unfold Char.isAlpha Char.isUpper Char.isLower
  revert h
  rcases c with ⟨⟨⟨v, hv⟩⟩, hc⟩
  simp [Char.le_def, UInt32.le_def, BitVec.le_def]
  intro h1 h2
  omega

theorem digit_not_und (c : Char) (h : c.isDigit = true) : c ≠ '_' := by
  rintro rfl
  simp [Char.isDigit, Char.le_def, UInt32.le_def, BitVec.le_def] at h

theorem alpha_eq_word (s : Str) : simpleAlphaId s = specWordId s := by
  cases s with
  | nil => rfl
  | cons c cs =>
    unfold specWordId specWordChar
    simp only [simpleAlphaId, List.isEmpty_cons, List.all_cons,
      List.headD_cons, Bool.not_false, Bool.true_and, Bool.beq_eq_decide_eq]
    by_cases hd : c.isDigit
    · simp [hd, digit_not_alpha c hd, digit_not_und c hd]
    · simp only [hd, Bool.not_false, Bool.and_true]
      cases ha : c.isAlpha <;> simp [ha, hd]

theorem digit_not_dot (c : Char) (h : c.isDigit = true) : c ≠ '.' := by
  rintro rfl
  simp [Char.isDigit, Char.le_def, UInt32.le_def, BitVec.le_def] at h

theorem dotCount_cons (c : Char) (r : Str) :
    dotCount (c :: r) = (if c = '.' then 1 else 0) + dotCount r := by
  simp only [dotCount, List.filter_cons]
  split <;> simp_all <;> omega

theorem all_digit_iff (r : Str) :
    (∀ c ∈ r, c.isDigit = true) ↔
    ((∀ c ∈ r, specDigitDot c = true) ∧ dotCount r = 0) := by
  induction r with
  | nil => simp [dotCount]
  | cons c r ih =>
    simp only [List.mem_cons, forall_eq_or_imp, dotCount_cons]
    constructor
    · rintro ⟨h1, h2⟩
      have := ih.mp h2
      refine ⟨⟨by simp [specDigitDot, h1], this.1⟩, ?_⟩
      simp [digit_not_dot c h1, this.2]
    · rintro ⟨⟨h1, h2⟩, h3⟩
      by_cases hdot : c = '.'
      · simp [hdot] at h3
      · simp only [hdot, if_false, Nat.zero_add] at h3
        simp only [specDigitDot, hdot, Bool.or_false] at h1
        simp at h1
        exact ⟨h1, ih.mpr ⟨h2, h3⟩⟩

theorem digitsThen_iff (r : Str) : digitsThen r = true ↔
    ((∀ c ∈ r, specDigitDot c = true) ∧ dotCount r ≤ 1) := by
  induction r with
  | nil => simp [digitsThen, dotCount]
  | cons c r ih =>
    by_cases hc : c = '.'
    · subst hc
      simp only [digitsThen, dotCount_cons, List.mem_cons, forall_eq_or_imp]
      simp only [reduceIte, List.all_eq_true]
      constructor
      · intro h
        have := (all_digit_iff r).mp (by simpa using h)
        exact ⟨⟨by simp [specDigitDot], this.1⟩, by omega⟩
      · rintro ⟨⟨-, h2⟩, h3⟩
        have h0 : dotCount r = 0 := by omega
        have := (all_digit_iff r).mpr ⟨h2, h0⟩
        simpa using this
    · simp only [digitsThen, if_neg hc, dotCount_cons, if_neg hc,
        Nat.zero_add, List.mem_cons, forall_eq_or_imp, Bool.and_eq_true, ih]
      constructor
      · rintro ⟨h1, h2, h3⟩
        exact ⟨⟨by simp [specDigitDot, h1], h2⟩, h3⟩
      · rintro ⟨⟨h1, h2⟩, h3⟩
        simp only [specDigitDot, hc] at h1
        simp at h1
        exact ⟨h1, h2, h3⟩

theorem snb_iff (b : Str) : simpleNumericBody b = true ↔
    (b ≠ [] ∧ (∀ c ∈ b, specDigitDot c = true) ∧ dotCount b ≤ 1 ∧
      ∃ c ∈ b, c.isDigit = true) := by
  cases b with
  | nil => simp [simpleNumericBody]
  | cons c r =>
    by_cases hc : c = '.'
    · subst hc
      simp only [simpleNumericBody, dotCount_cons, List.mem_cons,
        forall_eq_or_imp, reduceIte, Bool.and_eq_true, Bool.not_eq_true',
        List.all_eq_true, ne_eq, reduceCtorEq, not_false_iff, true_and]
      constructor
      · rintro ⟨h1, h2⟩
        have h2' : ∀ c ∈ r, c.isDigit = true := by simpa using h2
        have := (all_digit_iff r).mp h2'
        have hne : r ≠ [] := by
          cases r
          · simp at h1
          · simp
        refine ⟨⟨by simp [specDigitDot], this.1⟩, by omega, ?_⟩
        obtain ⟨d, hd⟩ := List.exists_mem_of_ne_nil r hne
        exact ⟨d, Or.inr hd, h2' d hd⟩
      · rintro ⟨⟨-, h2⟩, h3, hex⟩
        obtain ⟨d, hd, hdig⟩ := hex
        have h0 : dotCount r = 0 := by omega
        have := (all_digit_iff r).mpr ⟨h2, h0⟩
        refine ⟨?_, by simpa using this⟩
        rcases hd with rfl | hd
        · exact absurd hdig (by decide)
        · cases r
          · simp at hd
          · simp
    · simp only [simpleNumericBody, if_neg hc, Bool.and_eq_true, digitsThen_iff,
        dotCount_cons, if_neg hc, Nat.zero_add, List.mem_cons, forall_eq_or_imp,
        ne_eq, reduceCtorEq, not_false_iff, true_and]
      constructor
      · rintro ⟨h1, h2, h3⟩
        exact ⟨⟨by simp [specDigitDot, h1], h2⟩, h3, ⟨c, Or.inl rfl, h1⟩⟩
      · rintro ⟨⟨h1, h2⟩, h3, -⟩
        simp only [specDigitDot, hc] at h1
        simp at h1
        exact ⟨h1, h2, h3⟩

theorem escB_bs (s : Str) : escBackslash ('\\' :: s) = '\\' :: '\\' :: escBackslash s := by
  simp [escBackslash]

theorem escB_ne (c : Char) (s : Str) (h : c ≠ '\\') :
    escBackslash (c :: s) = c :: escBackslash s := by
  simp [escBackslash, h]

theorem escQ_q (s : Str) : escQuote ('"' :: s) = '\\' :: '"' :: escQuote s := by
  simp [escQuote]

theorem escQ_ne (c : Char) (s : Str) (h : c ≠ '"') :
    escQuote (c :: s) = c :: escQuote s := by
  simp [escQuote, h]

theorem escLF_lf (s : Str) : escLF ('\n' :: s) = '\\' :: 'n' :: escLF s := by
  simp [escLF]

theorem escLF_ne (c : Char) (s : Str) (h : c ≠ '\n') :
    escLF (c :: s) = c :: escLF s := by
  simp [escLF, h]

theorem escCRLF_crlf (s : Str) : escCRLF ('\r' :: '\n' :: s) = '\\' :: 'n' :: escCRLF s := by
  simp [escCRLF]

theorem escCRLF_ne (c : Char) (s : Str) (h : c ≠ '\r') :
    escCRLF (c :: s) = c :: escCRLF s := by
  cases s with
  | nil => rfl
  | cons d ds => simp [escCRLF, h]

theorem escCRLF_cr (s : Str) (h : s.headD ' ' ≠ '\n') :
    escCRLF ('\r' :: s) = '\r' :: escCRLF s := by
  cases s with
  | nil => rfl
  | cons d ds =>
    have : d ≠ '\n' := by simpa using h
    simp [escCRLF, this]

theorem escQB_head (t : Str) (h : t.headD ' ' ≠ '\n') :
    (escQuote (escBackslash t)).headD ' ' ≠ '\n' := by
  cases t with
  | nil => simp [escBackslash, escQuote]
  | cons u t' =>
    by_cases hu : u = '\\'
    · subst hu
      rw [escB_bs, escQ_ne _ _ (by decide), escQ_ne _ _ (by decide)]
      simp
    · rw [escB_ne _ _ hu]
      by_cases hq : u = '"'
      · subst hq
        rw [escQ_q]
        simp
      · rw [escQ_ne _ _ hq]
        simpa using h

theorem escapeSeq_cons (a : Char) (t : Str)
    (h : ¬(a = '\r' ∧ t.headD ' ' = '\n')) :
    escapeSeq (a :: t) = specEscChar a ++ escapeSeq t := by
  unfold escapeSeq
  by_cases ha : a = '\\'
  · subst ha
    rw [escB_bs, escQ_ne _ _ (by decide), escQ_ne _ _ (by decide),
      escCRLF_ne _ _ (by decide), escCRLF_ne _ _ (by decide),
      escLF_ne _ _ (by decide), escLF_ne _ _ (by decide)]
    simp [specEscChar]
  · by_cases hq : a = '"'
    · subst hq
      rw [escB_ne _ _ (by decide), escQ_q,
        escCRLF_ne _ _ (by decide), escCRLF_ne _ _ (by decide),
        escLF_ne _ _ (by decide), escLF_ne _ _ (by decide)]
      simp [specEscChar]
    · by_cases hn : a = '\n'
      · subst hn
        rw [escB_ne _ _ (by decide), escQ_ne _ _ (by decide),
          escCRLF_ne _ _ (by decide), escLF_lf]
        simp [specEscChar]
      · by_cases hr : a = '\r'
        · subst hr
          have hh : t.headD ' ' ≠ '\n' := by tauto
          rw [escB_ne _ _ (by decide), escQ_ne _ _ (by decide),
            escCRLF_cr _ (escQB_head t hh), escLF_ne _ _ (by decide)]
          simp [specEscChar]
        · rw [escB_ne _ _ ha, escQ_ne _ _ hq, escCRLF_ne _ _ hr,
            escLF_ne _ _ hn]
          simp [specEscChar, ha, hq, hn]

theorem escapeSeq_nil : escapeSeq [] = [] := rfl

theorem escapeSeq_eq_spec : (s : Str) → escapeSeq s = specEscape s
  | [] => rfl
  | [c] => by
    rw [escapeSeq_cons c [] (by simp), escapeSeq_nil]
    simp [specEscape]
  | a :: b :: r => by
    by_cases hab : a = '\r' ∧ b = '\n'
    · obtain ⟨rfl, rfl⟩ := hab
      unfold escapeSeq
      rw [escB_ne _ _ (by decide), escB_ne _ _ (by decide),
        escQ_ne _ _ (by decide), escQ_ne _ _ (by decide),
        escCRLF_crlf, escLF_ne _ _ (by decide), escLF_ne _ _ (by decide)]
      have ih := escapeSeq_eq_spec r
      unfold escapeSeq at ih
      rw [ih]
      simp [specEscape]
    · rw [escapeSeq_cons a (b :: r) (by simpa using hab),
        escapeSeq_eq_spec (b :: r)]
      simp [specEscape, hab]

theorem specEscape_id : (s : Str) → needEscape s = false → specEscape s = s
  | [], _ => rfl
  | [c], h => by
    simp only [needEscape, List.any_cons, List.any_nil, Bool.or_false,
      Bool.or_eq_false_iff, decide_eq_false_iff_not] at h
    obtain ⟨⟨⟨h1, h2⟩, h3⟩, h4⟩ := h
    simp [specEscape, specEscChar, h1, h2, h4]
  | a :: b :: r, h => by
    have h' := h
    simp only [needEscape, List.any_cons, Bool.or_eq_false_iff,
      decide_eq_false_iff_not] at h'
    have ha := h'.1
    obtain ⟨⟨⟨h1, h2⟩, h3⟩, h4⟩ := ha
    have ht : needEscape (b :: r) = false := by
      simp only [needEscape, List.any_cons, Bool.or_eq_false_iff] at h ⊢
      exact h.2
    have hrec := specEscape_id (b :: r) ht
    simp [specEscape, specEscChar, h1, h2, h3, h4, hrec]

theorem specEscape_crlf (r : Str) :
    specEscape ('\r' :: '\n' :: r) = '\\' :: 'n' :: specEscape r := by
  simp [specEscape]

theorem numeric_eq_lit (s : Str) : simpleNumeric s = specNumericLit s := by
  unfold simpleNumeric specNumericLit
  rw [Bool.eq_iff_iff]
  rw [snb_iff]
  simp only [Bool.and_eq_true, Bool.not_eq_true', List.all_eq_true,
    List.any_eq_true, decide_eq_true_eq]
  constructor
  · rintro ⟨h1, h2, h3, h4⟩
    refine ⟨⟨⟨?_, h2⟩, h3⟩, h4⟩
    cases hb : (if s.headD ' ' = '-' then s.tail else s) with
    | nil => exact absurd hb h1
    | cons x xs => simp [hb] at *
  · rintro ⟨⟨⟨h1, h2⟩, h3⟩, h4⟩
    refine ⟨?_, h2, h3, h4⟩
    intro hnil
    rw [hnil] at h1
    simp at h1

theorem match_eq_spec (s : Str) : simpleIdMatch s = specSimpleId s := by
  unfold simpleIdMatch specSimpleId
  rw [alpha_eq_word, numeric_eq_lit]

theorem specEscChar_len (c : Char) : 1 ≤ (specEscChar c).length := by
  unfold specEscChar
  repeat' split
  all_goals simp

theorem specEscape_len : (s : Str) → s.length ≤ (specEscape s).length
  | [] => by simp [specEscape]
  | [c] => by
    have := specEscChar_len c
    simpa [specEscape] using this
  | a :: b :: r => by
    by_cases hab : a = '\r' ∧ b = '\n'
    · obtain ⟨rfl, rfl⟩ := hab
      have := specEscape_len r
      rw [specEscape_crlf]
      simp only [List.length_cons]
      omega
    · have h1 := specEscChar_len a
      have h2 := specEscape_len (b :: r)
      simp only [specEscape, if_neg hab, List.length_append, List.length_cons]
      simp only [List.length_cons] at h2
      omega

theorem normStr_bare (s : Str)
    (h : (simpleIdMatch s && !(reservedIds.contains s)) = true) :
    normStr s = s := by
  unfold normStr
  rw [if_pos h]

theorem normStr_quoted (s : Str)
    (h : ¬(simpleIdMatch s && !(reservedIds.contains s)) = true) :
    normStr s = '"' :: (specEscape s ++ ['"']) := by
  unfold normStr
  rw [if_neg h]
  by_cases hne : needEscape s
  · simp only [hne, if_true, escapeSeq_eq_spec]
  · simp only [Bool.not_eq_true] at hne
    simp only [hne, Bool.false_eq_true, if_false, specEscape_id s hne]

theorem normStr_ne (s : Str)
    (h : ¬(simpleIdMatch s && !(reservedIds.contains s)) = true) :
    normStr s ≠ s := by
  intro he
  rw [normStr_quoted s h] at he
  have hl := congrArg List.length he
  have := specEscape_len s
  simp only [List.length_cons, List.length_append] at hl
  simp at hl
  omega

theorem quoted_not_simple (t : Str) : simpleIdMatch ('"' :: t) = false := by
  unfold simpleIdMatch simpleAlphaId simpleNumeric simpleNumericBody
  simp [digitsThen]

theorem contains_mem (s : Str) :
    reservedIds.contains s = true ↔ s ∈ reservedIds := by
  exact List.elem_iff

theorem cond_iff (s : Str) :
    (simpleIdMatch s && !(reservedIds.contains s)) = true ↔
      (specSimpleId s = true ∧ s ∉ reservedIds) := by
  rw [match_eq_spec]
  simp [contains_mem]

/-- C5 (counterexample): the claimed idempotence fails on the code: the
text `graph` normalizes to the quoted literal `"graph"`, and normalizing
that quoted literal escapes its quotes instead of returning it
unchanged. -/
theorem c5_normalize_not_idempotent_on_quoted :
    normStr (normStr "graph".data) ≠ normStr "graph".data := by decide

/-- C5 (amended): identifier normalization is idempotent on a text value
exactly when normalization renders the value bare; when the normalized
form is a quoted literal, re-normalizing it re-quotes and re-escapes it
and so differs. -/
theorem c5_normalize_idempotent_iff_bare (s : Str) :
    normStr (normStr s) = normStr s ↔ normStr s = s := by
  constructor
  · intro h
    by_cases hc : (simpleIdMatch s && !(reservedIds.contains s)) = true
    · exact normStr_bare s hc
    · exfalso
      have hq := normStr_quoted s hc
      have hqc : ¬(simpleIdMatch (normStr s) &&
          !(reservedIds.contains (normStr s))) = true := by
        rw [hq, quoted_not_simple]
        simp
      exact normStr_ne (normStr s) hqc h
  · intro h
    rw [h]
    exact h

/-- C6: a plain text value renders bare exactly when it matches the
simple-identifier grammar (letters/digits/underscore not starting with a
digit, or a signed/unsigned numeric literal) and is not a reserved word;
otherwise it renders as a quoted literal with backslash, double quote,
and CR/LF sequences escaped. -/
theorem c6_normalize_classification (s : Str) :
    (normStr s = s ↔ (specSimpleId s = true ∧ s ∉ reservedIds)) ∧
    (¬(specSimpleId s = true ∧ s ∉ reservedIds) →
      normStr s = '"' :: (specEscape s ++ ['"'])) := by
  constructor
  · constructor
    · intro h
      by_contra hnc
      exact normStr_ne s (fun hcond => hnc ((cond_iff s).mp hcond)) h
    · intro hsp
      exact normStr_bare s ((cond_iff s).mpr hsp)
  · intro hns
    exact normStr_quoted s (fun hcond => hns ((cond_iff s).mp hcond))

/-- C6 (witness): `simple123` normalizes bare, while `this is quoted` and
the reserved word `graph` normalize to quoted literals. -/
theorem c6_normalize_classification_witness :
    normStr "simple123".data = "simple123".data ∧
    normStr "this is quoted".data =
      '"' :: (specEscape "this is quoted".data ++ ['"']) ∧
    normStr "graph".data = '"' :: (specEscape "graph".data ++ ['"']) :=
  ⟨(c6_normalize_classification _).1.mpr (by decide),
   (c6_normalize_classification _).2 (by decide),
   (c6_normalize_classification _).2 (by decide)⟩

/-- C9: constructing a root graph with both the strict flag and the
multigraph flag raises `ValueError` at the constructor, and consequently a
successfully constructed Dot object is never both strict and
multigraph. -/
theorem c9_strict_multigraph_rejected :
    (∀ dir st mg id cm, st = true → mg = true →
      mkDot dir st mg id cm = .error .strictMultigraph) ∧
    (∀ dir st mg id cm d, mkDot dir st mg id cm = .ok d →
      ¬(d.data.strict = true ∧ d.data.multigraph = true)) := by
  constructor
  · rintro dir st mg id cm rfl rfl
    rfl
  · intro dir st mg id cm d h
    by_cases hms : (mg && st) = true
    · unfold mkDot at h
      rw [if_pos hms] at h
      exact absurd h (by simp)
    · unfold mkDot at h
      rw [if_neg hms] at h
      simp only [Except.ok.injEq] at h
      subst h
      rintro ⟨h1, h2⟩
      simp only [Dot.data] at h1 h2
      rw [h1, h2] at hms
      simp at hms

/-- C9 (witness): `Dot(strict=True, multigraph=True)` fails, and a plain
multigraph construction succeeds without being strict. -/
theorem c9_strict_multigraph_rejected_witness :
    mkDot false true true none none = .error .strictMultigraph ∧
    ∃ d, mkDot false false true none none = .ok d ∧
      ¬(d.data.strict = true ∧ d.data.multigraph = true) :=
  ⟨c9_strict_multigraph_rejected.1 false true true none none rfl rfl,
   ⟨_, rfl, c9_strict_multigraph_rejected.2 false false true none none _ rfl⟩⟩

-- dict lemmas
theorem dictGet_set_self [DecidableEq α] (m : Dict α β) (k : α) (v : β) :
    dictGet k (dictSet m k v) = some v := by
  induction m with
  | nil => simp [dictSet, dictGet]
  | cons kv m ih =>
    obtain ⟨k', v'⟩ := kv
    by_cases h : k' = k
    · subst h
      simp [dictSet, dictGet]
    · simp [dictSet, dictGet, h, ih]

theorem dictGet_set_ne [DecidableEq α] (m : Dict α β) (k' k : α) (v : β)
    (h : k' ≠ k) : dictGet k (dictSet m k' v) = dictGet k m := by
  induction m with
  | nil => simp [dictSet, dictGet, h]
  | cons kv m ih =>
    obtain ⟨k0, v0⟩ := kv
    by_cases h0 : k0 = k'
    · subst h0
      simp [dictSet, dictGet, h]
    · simp only [dictSet, if_neg h0]
      by_cases h1 : k0 = k
      · subst h1
        simp [dictGet]
      · simp [dictGet, h1, ih]

theorem dictGet_pop_self [DecidableEq α] (m : Dict α β) (k : α) :
    dictGet k (dictPop k m) = none := by
  induction m with
  | nil => simp [dictPop, dictGet]
  | cons kv m ih =>
    obtain ⟨k', v⟩ := kv
    by_cases h : k' = k
    · simp [dictPop, h, ih]
    · simp [dictPop, dictGet, h, ih]

theorem dictGet_pop_ne [DecidableEq α] (m : Dict α β) (k' k : α) (h : k' ≠ k) :
    dictGet k (dictPop k' m) = dictGet k m := by
  induction m with
  | nil => simp [dictPop]
  | cons kv m ih =>
    obtain ⟨k0, v⟩ := kv
    by_cases h0 : k0 = k'
    · subst h0
      simp [dictPop, dictGet, if_neg h, ih]
    · by_cases h1 : k0 = k
      · subst h1
        simp [dictPop, dictGet, h0]
      · simp [dictPop, dictGet, h0, h1, ih]

theorem fill_get (ra : Attrs) (acc : Attrs) (k : Str) :
    dictGet k (ra.foldl (fun acc kv =>
      if (dictGet kv.1 acc).isSome then acc else dictSet acc kv.1 kv.2) acc) =
    (dictGet k acc).orElse (fun _ => dictGet k ra) := by
  induction ra generalizing acc with
  | nil => simp [dictGet]
  | cons kv ra ih =>
    obtain ⟨k', v'⟩ := kv
    simp only [List.foldl_cons]
    by_cases hp : (dictGet k' acc).isSome
    · rw [if_pos hp, ih]
      by_cases hk : k' = k
      · subst hk
        obtain ⟨w, hw⟩ := Option.isSome_iff_exists.mp hp
        simp [dictGet, hw, Option.orElse]
      · simp [dictGet, hk]
    · rw [if_neg hp, ih]
      by_cases hk : k' = k
      · subst hk
        have : dictGet k' acc = none := Option.not_isSome_iff_eq_none.mp hp
        simp [this, dictGet_set_self, dictGet, Option.orElse]
      · rw [dictGet_set_ne acc k' k v' hk]
        simp [dictGet, hk]

theorem setAttrs_cons_none (target : Attrs) (n : Str) (rest : AttrArgs) :
    setAttrs target ((n, none) :: rest) true =
      setAttrs (dictPop (stripUnd n) target) rest true := rfl

theorem setAttrs_cons_some (target : Attrs) (n : Str) (v : ID) (rest : AttrArgs) :
    setAttrs target ((n, some v) :: rest) true =
      setAttrs (dictSet target (stripUnd n) (normalizeId v)) rest true := rfl

theorem setAttrs_ok : (args : AttrArgs) → (target : Attrs) →
    ∃ r, setAttrs target args true = .ok r
  | [], target => ⟨target, rfl⟩
  | (n, none) :: rest, target => by
    rw [setAttrs_cons_none]
    exact setAttrs_ok rest _
  | (n, some v) :: rest, target => by
    rw [setAttrs_cons_some]
    exact setAttrs_ok rest _

theorem integrateRole_defined (attrs : Attrs) (roles : Roles) (what : Str)
    (idy : Option Str) (rn : NormID) (ra : Attrs)
    (h1 : dictGet "role".data attrs = some rn)
    (h2 : dictGet rn roles = some ra) :
    ∃ res, integrateRole attrs roles what idy = .ok res ∧
      dictGet "role".data res = none ∧
      ∀ k, k ≠ "role".data →
        dictGet k res = (dictGet k attrs).orElse (fun _ => dictGet k ra) := by
  have hres : integrateRole attrs roles what idy =
      .ok (dictPop "role".data (ra.foldl (fun acc kv =>
        if (dictGet kv.1 acc).isSome then acc
        else dictSet acc kv.1 kv.2) attrs)) := by
    unfold integrateRole
    simp only [h1, h2]
  refine ⟨_, hres, ?_, ?_⟩
  · rw [dictGet_pop_self]
  · intro k hk
    rw [dictGet_pop_ne _ _ _ (fun he => hk he.symm), fill_get]

theorem integrateRole_undefined (attrs : Attrs) (roles : Roles) (what : Str)
    (i : Str) (rn : NormID)
    (h1 : dictGet "role".data attrs = some rn)
    (h2 : dictGet rn roles = none) :
    ∃ msg, integrateRole attrs roles what (some i) =
        .error (.undefinedRole rn msg) ∧ i <:+ msg := by
  refine ⟨what ++ (' ' :: i), ?_, ?_⟩
  · unfold integrateRole
    simp only [h1, h2]
  · exact ⟨what ++ [' '], by simp⟩

/-- C7: assigning the reserved `role` attribute through an entity
attribute call (`permit_role=True`) never fails; at serialization time a
defined role fills in exactly the attribute names absent from the explicit
set and the `role` attribute is removed; an undefined role fails with an
`UndefinedRoleError` whose message contains the identity of the
referencing entity. -/
theorem c7_role_merge_and_errors :
    (∀ (target : Attrs) (args : AttrArgs),
      ∃ r, setAttrs target args true = .ok r) ∧
    (∀ (attrs : Attrs) (roles : Roles) (what : Str) (idy : Option Str)
       (rn : NormID) (ra : Attrs),
      dictGet "role".data attrs = some rn → dictGet rn roles = some ra →
      ∃ res, integrateRole attrs roles what idy = .ok res ∧
        dictGet "role".data res = none ∧
        ∀ k, k ≠ "role".data →
          dictGet k res = (dictGet k attrs).orElse (fun _ => dictGet k ra)) ∧
    (∀ (attrs : Attrs) (roles : Roles) (what : Str) (i : Str) (rn : NormID),
      dictGet "role".data attrs = some rn → dictGet rn roles = none →
      ∃ msg, integrateRole attrs roles what (some i) =
          .error (.undefinedRole rn msg) ∧ i <:+ msg) :=
  ⟨fun target args => setAttrs_ok args target,
   fun attrs roles what idy rn ra h1 h2 =>
     integrateRole_defined attrs roles what idy rn ra h1 h2,
   fun attrs roles what i rn h1 h2 =>
     integrateRole_undefined attrs roles what i rn h1 h2⟩

/-- C7 (witness): concrete role assignment, merge (explicit `color=red`
beats the role's `blue`, the role's `shape=box` fills in), and
undefined-role failure naming node `a`. -/
theorem c7_role_merge_and_errors_witness :
    (∃ r, setAttrs [] [("role".data, some (.str "nil".data))] true = .ok r) ∧
    (∃ res, integrateRole [("role".data, .str "nil".data),
        ("color".data, .str "red".data)]
        [(.str "nil".data, [("color".data, .str "blue".data),
          ("shape".data, .str "box".data)])] "node".data (some "a".data) =
        .ok res ∧
      dictGet "role".data res = none ∧
      ∀ k, k ≠ "role".data → dictGet k res =
        (dictGet k [("role".data, NormID.str "nil".data),
          ("color".data, NormID.str "red".data)]).orElse
        (fun _ => dictGet k [("color".data, NormID.str "blue".data),
          ("shape".data, NormID.str "box".data)])) ∧
    (∃ msg, integrateRole [("role".data, NormID.str "ghost".data)] []
        "node".data (some "a".data) =
        .error (.undefinedRole (.str "ghost".data) msg) ∧ "a".data <:+ msg) :=
  ⟨c7_role_merge_and_errors.1 [] [("role".data, some (.str "nil".data))],
   c7_role_merge_and_errors.2.1 _ _ "node".data (some "a".data) (.str "nil".data) _ (by decide)
     (by decide),
   c7_role_merge_and_errors.2.2 _ [] "node".data "a".data (.str "ghost".data) (by decide) rfl⟩

/-- The cycle scan starting at `b` finds `a` whenever `a` is in the theme
orbit of `b` and the fuel exceeds the orbit length. -/
theorem cycleScan_finds (st : ThemeStore) (a b k : Nat)
    (h : InOrbitN st b a k) : ∀ fuel, k < fuel →
    cycleScan st a fuel b = some true := by
  induction h with
  | refl b =>
    intro fuel hf
    cases fuel with
    | zero => omega
    | succ f => simp [cycleScan]
  | step b c a' k hth horb ih =>
    intro fuel hf
    cases fuel with
    | zero => omega
    | succ f =>
      by_cases hba : b = a'
      · simp [cycleScan, hba]
      · simp only [cycleScan, if_neg hba, hth]
        exact ih f (by omega)

/-- C8: when `B` transitively uses `A` as a theme, `A.use_theme(B)`
raises the cycle error at that call and leaves the theme store — hence
both graphs' theme references — exactly as they were. -/
theorem c8_use_theme_cycle_rejected (st : ThemeStore) (a b k : Nat) (fuel : Nat)
    (h : InOrbitN st b a k) (hf : k < fuel) :
    useThemeRun fuel st a (some b) = (st, some .cycle) := by
  unfold useThemeRun useTheme
  simp only [cycleScan_finds st a b k h fuel hf]

/-- C8 (witness): with graph 1 using graph 0 as its theme,
`0.use_theme(1)` raises the cycle error and the store is unchanged. -/
theorem c8_use_theme_cycle_rejected_witness :
    useThemeRun 2 [(1, some 0)] 0 (some 1) = ([(1, some 0)], some .cycle) :=
  c8_use_theme_cycle_rejected [(1, some 0)] 0 1 1 2
    (InOrbitN.step 1 0 0 0 rfl (InOrbitN.refl 0)) (by omega)

theorem normIdDeepcopy_id (x : NormID) : normIdDeepcopy x = x := by
  cases x <;> rfl

theorem attrsDeepcopy_id (a : Attrs) : attrsDeepcopy a = a := by
  unfold attrsDeepcopy
  induction a with
  | nil => rfl
  | cons kv a ih => simp [ih, normIdDeepcopy_id]

theorem rolesDeepcopy_id (r : Roles) : rolesDeepcopy r = r := by
  unfold rolesDeepcopy
  induction r with
  | nil => rfl
  | cons rv r ih => simp [ih, normIdDeepcopy_id, attrsDeepcopy_id]

theorem edgeKeyDeepcopy_id (k : EdgeKey) : edgeKeyDeepcopy k = k := by
  obtain ⟨a, b, c⟩ := k
  simp [edgeKeyDeepcopy, normIdDeepcopy_id]
  cases c <;> simp [normIdDeepcopy_id]

theorem edgeDeepcopy_id (e : Edge) : edgeDeepcopy e = e := by
  obtain ⟨p1, p2, dsc, dr, at_⟩ := e
  simp [edgeDeepcopy, normPortDeepcopy, attrsDeepcopy_id]
  cases dsc <;> simp [normIdDeepcopy_id]

mutual
theorem blkDeepcopy_id : (b : Blk) → blkDeepcopy b = b
  | .mk gid dg dn de ga nodes edges subs => by
    simp only [blkDeepcopy, attrsDeepcopy_id, blkListDeepcopy_id,
      Blk.mk.injEq, and_true, true_and]
    have h1 : normIdDeepcopy = id := funext normIdDeepcopy_id
    have h2 : edgeKeyDeepcopy = id := funext edgeKeyDeepcopy_id
    refine ⟨?_, ?_, ?_⟩
    · cases gid <;> simp [normIdDeepcopy_id]
    · rw [h1, List.map_id]
    · rw [h2, List.map_id]

theorem blkListDeepcopy_id : (l : List Blk) → blkListDeepcopy l = l
  | [] => rfl
  | b :: bs => by
    simp [blkListDeepcopy, blkDeepcopy_id b, blkListDeepcopy_id bs]
end

theorem dotDeepcopy_id (d : Dot) : dotDeepcopy d = d := by
  obtain ⟨data, theme⟩ := d
  obtain ⟨dir, st, mg, cm, gr, nr, er, nm, em, blk, ctr⟩ := data
  simp only [dotDeepcopy, Dot.data, Dot.theme, rolesDeepcopy_id,
    blkDeepcopy_id, Dot.mk.injEq, GraphData.mk.injEq, and_true, true_and]
  have h1 : (fun nv : NodeKey × Attrs =>
      (normIdDeepcopy nv.1, attrsDeepcopy nv.2)) = id := by
    funext nv
    simp [normIdDeepcopy_id, attrsDeepcopy_id]
  have h2 : (fun ev : EdgeKey × Edge =>
      (edgeKeyDeepcopy ev.1, edgeDeepcopy ev.2)) = id := by
    funext ev
    simp [edgeKeyDeepcopy_id, edgeDeepcopy_id]
  rw [h1, h2, List.map_id, List.map_id]
  simp

/-- C10: deepcopy never duplicates a `Nonce` (copying a Nonce returns the
identical object); consequently the deep copy of a Dot object carries the
identical placeholders everywhere, the same Nonce value addresses the
corresponding node in both graphs, and the theme reference is shared. -/
theorem c10_deepcopy_preserves_nonce_identity :
    (∀ n : Nonce, nonceDeepcopy n = n) ∧
    (∀ d : Dot, dotDeepcopy d = d ∧
      (∀ n : Nonce, dictGet (NormID.nonce n) (dotDeepcopy d).data.nodemap =
        dictGet (NormID.nonce n) d.data.nodemap) ∧
      (dotDeepcopy d).theme = d.theme) :=
  ⟨fun _ => rfl,
   fun d => ⟨dotDeepcopy_id d,
     fun n => by rw [dotDeepcopy_id d],
     by rw [dotDeepcopy_id d]⟩⟩

-- dict lemmas needed (some already merged in main file)
theorem dictGet_eq_none_iff [DecidableEq α] (m : Dict α β) (k : α) :
    dictGet k m = none ↔ k ∉ m.map Prod.fst := by
  induction m with
  | nil => simp [dictGet]
  | cons kv m ih =>
    obtain ⟨k', v⟩ := kv
    by_cases h : k' = k
    · subst h
      simp [dictGet]
    · simp only [dictGet, if_neg h, ih, List.map_cons, List.mem_cons]
      constructor
      · intro hk hc
        exact hc.elim (fun he => h he.symm) hk
      · intro hk hm
        exact hk (Or.inr hm)

theorem dictGet_append [DecidableEq α] (m1 m2 : Dict α β) (k : α) :
    dictGet k (m1 ++ m2) = (dictGet k m1).orElse (fun _ => dictGet k m2) := by
  induction m1 with
  | nil => simp [dictGet, Option.orElse]
  | cons kv m1 ih =>
    obtain ⟨k', v⟩ := kv
    by_cases h : k' = k
    · subst h
      simp [dictGet, Option.orElse]
    · simp [dictGet, h, ih]

theorem dictSet_fst_of_mem [DecidableEq α] (m : Dict α β) (k : α) (v v0 : β)
    (h : dictGet k m = some v0) :
    (dictSet m k v).map Prod.fst = m.map Prod.fst := by
  induction m with
  | nil => simp [dictGet] at h
  | cons kv m ih =>
    obtain ⟨k', v'⟩ := kv
    by_cases hk : k' = k
    · subst hk
      simp [dictSet]
    · simp only [dictGet, if_neg hk] at h
      simp [dictSet, hk, ih h]

-- shape lemmas for edgePreamble
theorem pre_nonmulti (d : Dot) (p1 p2 : PointArg) (np1 np2 : NormPort)
    (h : d.data.multigraph = false)
    (hp1 : mkNormPort p1 = .ok np1) (hp2 : mkNormPort p2 = .ok np2) :
    edgePreamble d p1 p2 none = .ok
      ((if d.data.directed || idKeyLE np1.node np2.node then
          (np1.node, np2.node, none)
        else (np2.node, np1.node, none)), np1, np2, none, d) := by
  unfold edgePreamble
  simp only [hp1, hp2, h]
  rfl

theorem pre_multi_nodisc (d : Dot) (p1 p2 : PointArg) (np1 np2 : NormPort)
    (h : d.data.multigraph = true)
    (hp1 : mkNormPort p1 = .ok np1) (hp2 : mkNormPort p2 = .ok np2) :
    edgePreamble d p1 p2 none = .ok
      ((if d.data.directed || idKeyLE np1.node np2.node then
          (np1.node, np2.node, some (.nonce ⟨d.data.nonceCtr, "__D".data⟩))
        else (np2.node, np1.node,
          some (.nonce ⟨d.data.nonceCtr, "__D".data⟩))), np1, np2,
        some (.nonce ⟨d.data.nonceCtr, "__D".data⟩),
        .mk { d.data with nonceCtr := d.data.nonceCtr + 1 } d.theme) := by
  unfold edgePreamble
  simp only [hp1, hp2, h]
  rfl

theorem pre_multi_disc (d : Dot) (p1 p2 : PointArg) (dv : ID)
    (np1 np2 : NormPort) (h : d.data.multigraph = true)
    (hp1 : mkNormPort p1 = .ok np1) (hp2 : mkNormPort p2 = .ok np2) :
    edgePreamble d p1 p2 (some dv) = .ok
      ((if d.data.directed || idKeyLE np1.node np2.node then
          (np1.node, np2.node, some (normalizeId dv))
        else (np2.node, np1.node, some (normalizeId dv))), np1, np2,
        some (normalizeId dv), d) := by
  unfold edgePreamble
  simp only [hp1, hp2, h]
  rfl

theorem pre_disc_err (d : Dot) (p1 p2 : PointArg) (dv : ID)
    (np1 np2 : NormPort) (h : d.data.multigraph = false)
    (hp1 : mkNormPort p1 = .ok np1) (hp2 : mkNormPort p2 = .ok np2) :
    edgePreamble d p1 p2 (some dv) = .error .discNotAllowed := by
  unfold edgePreamble
  simp only [hp1, hp2, h]
  rfl

theorem edgeOp_new (d d1 : Dot) (p1 p2 : PointArg) (disc : Option ID)
    (attrs : AttrArgs) (mne : Bool) (key : EdgeKey) (np1 np2 : NormPort)
    (nd : NormDisc) (a : Attrs)
    (hpre : edgePreamble d p1 p2 disc = .ok (key, np1, np2, nd, d1))
    (hmiss : dictGet key d1.data.edgemap = none)
    (hattrs : setAttrs [] attrs true = .ok a) :
    edgeOp d p1 p2 disc attrs false mne = .ok (.mk { d1.data with
      edgemap := d1.data.edgemap ++
        [(key, ⟨np1, np2, nd, d1.data.directed, a⟩)]
      blk := d1.data.blk.pushEdge key } d1.theme) := by
  unfold edgeOp
  simp only [hpre]
  show (match dictGet key d1.data.edgemap with
    | none => _
    | some e => _) = _
  rw [hmiss]
  simp only [Bool.false_eq_true, if_false, hattrs]
  rfl

theorem edgeOp_amend (d d1 : Dot) (p1 p2 : PointArg) (disc : Option ID)
    (attrs : AttrArgs) (me : Bool) (key : EdgeKey) (np1 np2 : NormPort)
    (nd : NormDisc) (e : Edge) (a : Attrs)
    (hpre : edgePreamble d p1 p2 disc = .ok (key, np1, np2, nd, d1))
    (hhit : dictGet key d1.data.edgemap = some e)
    (hattrs : setAttrs (updatePorts e np1 np2).attrs attrs true = .ok a) :
    edgeOp d p1 p2 disc attrs me false = .ok (.mk { d1.data with
      edgemap := dictSet d1.data.edgemap key
        { updatePorts e np1 np2 with attrs := a } } d1.theme) := by
  unfold edgeOp
  simp only [hpre]
  show (match dictGet key d1.data.edgemap with
    | none => _
    | some e => _) = _
  rw [hhit]
  simp only [Bool.false_eq_true, if_false, hattrs]
  rfl

theorem normIdB_mono (x : NormID) (n m : Nat) (h : normIdB x n) (hm : n ≤ m) :
    normIdB x m := by
  cases x with
  | str s => trivial
  | nonce nn => exact Nat.lt_of_lt_of_le h hm

theorem normalizeId_bound (i : ID) (n : Nat) (h : idB i n) :
    normIdB (normalizeId i) n := by
  cases i <;> simp [normalizeId, normIdB] <;> exact h

theorem exc_bind_ok (x : α) (f : α → Except Err β) :
    (Except.ok x >>= f) = f x := rfl

theorem exc_bind_err (e : Err) (f : α → Except Err β) :
    ((Except.error e : Except Err α) >>= f) = .error e := rfl

theorem mkNormPort_node_bound (p : PointArg) (np : NormPort) (n : Nat)
    (hp : mkNormPort p = .ok np) (hb : pointB p n) : normIdB np.node n := by
  cases p with
  | id i =>
    simp only [mkNormPort, Except.ok.injEq] at hp
    subst hp
    exact normalizeId_bound i n hb
  | port p =>
    simp only [mkNormPort] at hp
    cases hcp : p.cp with
    | none =>
      simp only [hcp, pure, Except.pure, exc_bind_ok, Except.ok.injEq] at hp
      subst hp
      exact normalizeId_bound p.node n hb
    | some c =>
      simp only [hcp] at hp
      by_cases h1 : c = "_".data
      · rw [if_pos h1] at hp
        simp only [pure, Except.pure, exc_bind_ok, Except.ok.injEq] at hp
        subst hp
        exact normalizeId_bound p.node n hb
      · rw [if_neg h1] at hp
        by_cases h2 : compassPts.contains c = true
        · rw [if_pos h2] at hp
          simp only [pure, Except.pure, exc_bind_ok, Except.ok.injEq] at hp
          subst hp
          exact normalizeId_bound p.node n hb
        · rw [if_neg h2] at hp
          simp only [exc_bind_err] at hp
          exact absurd hp (by simp)

theorem edgePreamble_ok_inv (d d1 : Dot) (p1 p2 : PointArg) (disc : Option ID)
    (key : EdgeKey) (np1 np2 : NormPort) (nd : NormDisc)
    (h : edgePreamble d p1 p2 disc = .ok (key, np1, np2, nd, d1)) :
    mkNormPort p1 = .ok np1 ∧ mkNormPort p2 = .ok np2 ∧
    key = (if d.data.directed || idKeyLE np1.node np2.node then
        (np1.node, np2.node, nd)
      else (np2.node, np1.node, nd)) ∧
    ((disc = none ∧ d.data.multigraph = false ∧ nd = none ∧ d1 = d) ∨
     (∃ dv, disc = some dv ∧ d.data.multigraph = true ∧
       nd = some (normalizeId dv) ∧ d1 = d) ∨
     (disc = none ∧ d.data.multigraph = true ∧
       nd = some (.nonce ⟨d.data.nonceCtr, "__D".data⟩) ∧
       d1.data.edgemap = d.data.edgemap ∧
       d1.data.nonceCtr = d.data.nonceCtr + 1 ∧
       d1.data.multigraph = d.data.multigraph ∧
       d1.data.directed = d.data.directed ∧
       d1.data.blk = d.data.blk ∧ d1.theme = d.theme)) := by
  unfold edgePreamble at h
  cases hp1 : mkNormPort p1 with
  | error e => rw [hp1, exc_bind_err] at h; exact absurd h (by simp)
  | ok q1 =>
    rw [hp1, exc_bind_ok] at h
    cases hp2 : mkNormPort p2 with
    | error e => rw [hp2, exc_bind_err] at h; exact absurd h (by simp)
    | ok q2 =>
      rw [hp2, exc_bind_ok] at h
      cases hd : disc with
      | some dv =>
        simp only [hd] at h
        cases hm : d.data.multigraph with
        | false =>
          simp only [hm, Bool.not_false, Bool.false_eq_true, if_neg,
            Bool.true_eq_false, reduceIte, exc_bind_err] at h
          exact absurd h (by simp)
        | true =>
          simp only [hm, Bool.not_true, Bool.false_eq_true, reduceIte,
            exc_bind_ok, Except.ok.injEq, Prod.mk.injEq] at h
          obtain ⟨hk, h1, h2, h3, h4⟩ := h
          rw [← hk, ← h1, ← h2, ← h3, ← h4]
          exact ⟨rfl, rfl, rfl, Or.inr (Or.inl ⟨dv, rfl, rfl, rfl, rfl⟩)⟩
      | none =>
        simp only [hd] at h
        cases hm : d.data.multigraph with
        | false =>
          simp only [hm, Bool.false_eq_true, reduceIte, exc_bind_ok,
            Except.ok.injEq, Prod.mk.injEq] at h
          obtain ⟨hk, h1, h2, h3, h4⟩ := h
          rw [← hk, ← h1, ← h2, ← h3, ← h4]
          exact ⟨rfl, rfl, rfl, Or.inl ⟨rfl, rfl, rfl, rfl⟩⟩
        | true =>
          simp only [hm, reduceIte, exc_bind_ok, Except.ok.injEq,
            Prod.mk.injEq] at h
          obtain ⟨hk, h1, h2, h3, h4⟩ := h
          rw [← hk, ← h1, ← h2, ← h3, ← h4]
          refine ⟨rfl, rfl, rfl,
            Or.inr (Or.inr ⟨rfl, rfl, rfl, rfl, rfl, rfl, rfl, rfl, rfl⟩)⟩

theorem edgeOp_ok_inv (d d2 : Dot) (p1 p2 : PointArg) (disc : Option ID)
    (attrs : AttrArgs) (me mne : Bool)
    (h : edgeOp d p1 p2 disc attrs me mne = .ok d2) :
    ∃ key np1 np2 nd d1,
      edgePreamble d p1 p2 disc = .ok (key, np1, np2, nd, d1) ∧
      ((dictGet key d1.data.edgemap = none ∧ me = false ∧
        ∃ a, setAttrs [] attrs true = .ok a ∧
          d2.data.edgemap = d1.data.edgemap ++
            [(key, ⟨np1, np2, nd, d1.data.directed, a⟩)] ∧
          d2.data.multigraph = d1.data.multigraph ∧
          d2.data.directed = d1.data.directed ∧
          d2.data.nonceCtr = d1.data.nonceCtr ∧
          d2.theme = d1.theme) ∨
       (∃ e, dictGet key d1.data.edgemap = some e ∧ mne = false ∧
        ∃ a, setAttrs (updatePorts e np1 np2).attrs attrs true = .ok a ∧
          d2.data.edgemap = dictSet d1.data.edgemap key
            { updatePorts e np1 np2 with attrs := a } ∧
          d2.data.multigraph = d1.data.multigraph ∧
          d2.data.directed = d1.data.directed ∧
          d2.data.nonceCtr = d1.data.nonceCtr ∧
          d2.data.blk = d1.data.blk ∧
          d2.theme = d1.theme)) := by
  unfold edgeOp at h
  cases hpre : edgePreamble d p1 p2 disc with
  | error e => rw [hpre, exc_bind_err] at h; exact absurd h (by simp)
  | ok tup =>
    obtain ⟨key, np1, np2, nd, d1⟩ := tup
    rw [hpre, exc_bind_ok] at h
    refine ⟨key, np1, np2, nd, d1, rfl, ?_⟩
    cases hget : dictGet key d1.data.edgemap with
    | none =>
      simp only [hget] at h
      cases hme : me with
      | true => simp only [hme, if_true] at h; exact absurd h (by simp)
      | false =>
        simp only [hme, Bool.false_eq_true, if_false] at h
        cases hsa : setAttrs [] attrs true with
        | error e => rw [hsa, exc_bind_err] at h; exact absurd h (by simp)
        | ok a =>
          rw [hsa, exc_bind_ok] at h
          simp only [Except.ok.injEq] at h
          refine Or.inl ⟨rfl, rfl, a, rfl, ?_, ?_, ?_, ?_, ?_⟩
          all_goals rw [← h]
          all_goals rfl
    | some e =>
      simp only [hget] at h
      cases hmne : mne with
      | true => simp only [hmne, if_true] at h; exact absurd h (by simp)
      | false =>
        simp only [hmne, Bool.false_eq_true, if_false] at h
        cases hsa : setAttrs (updatePorts e np1 np2).attrs attrs true with
        | error er => rw [hsa, exc_bind_err] at h; exact absurd h (by simp)
        | ok a =>
          rw [hsa, exc_bind_ok] at h
          simp only [Except.ok.injEq] at h
          refine Or.inr ⟨e, rfl, rfl, a, hsa, ?_, ?_, ?_, ?_, ?_, ?_⟩
          all_goals rw [← h]
          all_goals rfl

theorem key_third (key : EdgeKey) (x y : NormID) (nd : NormDisc) (c : Prop)
    [Decidable c] (h : key = if c then (x, y, nd) else (y, x, nd)) :
    key.2.2 = nd := by
  split at h <;> simp [h]

theorem keyB_of_parts (d' d1 : Dot) (p1 p2 : PointArg) (np1 np2 : NormPort)
    (key : EdgeKey) (nd : NormDisc)
    (hp1 : mkNormPort p1 = .ok np1) (hp2 : mkNormPort p2 = .ok np2)
    (hb1 : pointB p1 d'.data.nonceCtr) (hb2 : pointB p2 d'.data.nonceCtr)
    (hct : d'.data.nonceCtr ≤ d1.data.nonceCtr)
    (hnd : ∀ x, nd = some x → normIdB x d1.data.nonceCtr)
    (hkey : key = if d'.data.directed || idKeyLE np1.node np2.node then
        (np1.node, np2.node, nd) else (np2.node, np1.node, nd)) :
    keyB key d1.data.nonceCtr := by
  have h1 := normIdB_mono _ _ _ (mkNormPort_node_bound p1 np1 _ hp1 hb1) hct
  have h2 := normIdB_mono _ _ _ (mkNormPort_node_bound p2 np2 _ hp2 hb2) hct
  split at hkey <;> subst hkey <;> exact ⟨by assumption, by assumption, hnd⟩

theorem edgeInv_step (d' d'' : Dot) (p1 p2 : PointArg) (disc : Option ID)
    (attrs : AttrArgs) (me mne : Bool)
    (hinv : EdgeInv d')
    (hb1 : pointB p1 d'.data.nonceCtr) (hb2 : pointB p2 d'.data.nonceCtr)
    (hbd : discB disc d'.data.nonceCtr)
    (hop : edgeOp d' p1 p2 disc attrs me mne = .ok d'') : EdgeInv d'' := by
  obtain ⟨hnodup, hdisc, hbound⟩ := hinv
  obtain ⟨key, np1, np2, nd, d1, hpre, hcase⟩ :=
    edgeOp_ok_inv d' d'' p1 p2 disc attrs me mne hop
  obtain ⟨hp1, hp2, hkey, hdisj⟩ :=
    edgePreamble_ok_inv d' d1 p1 p2 disc key np1 np2 nd hpre
  -- common facts about d1
  have hfacts : d1.data.edgemap = d'.data.edgemap ∧
      d1.data.multigraph = d'.data.multigraph ∧
      d'.data.nonceCtr ≤ d1.data.nonceCtr ∧
      (∀ x, nd = some x → normIdB x d1.data.nonceCtr) ∧
      (d'.data.multigraph = false → nd = none) := by
    rcases hdisj with ⟨-, -, hnd, hd1⟩ | ⟨dv, hdv, hmg, hnd, hd1⟩ |
      ⟨-, hmg, hnd, hem, hct, hmg2, -, -, -⟩
    · subst hd1
      exact ⟨rfl, rfl, le_refl _, by simp [hnd], fun _ => hnd⟩
    · subst hd1
      refine ⟨rfl, rfl, le_refl _, ?_, fun hf => by rw [hmg] at hf; cases hf⟩
      intro x hx
      rw [hnd] at hx
      cases hx
      rw [hdv] at hbd
      exact normalizeId_bound dv _ hbd
    · refine ⟨hem, by rw [hmg2, hmg], by rw [hct]; omega, ?_,
        fun hf => by rw [hmg] at hf; cases hf⟩
      intro x hx
      rw [hnd] at hx
      cases hx
      rw [hct]
      exact Nat.lt_succ_self _
  obtain ⟨hem, hmg1, hct, hndb, hndnone⟩ := hfacts
  have hkb : keyB key d1.data.nonceCtr :=
    keyB_of_parts d' d1 p1 p2 np1 np2 key nd hp1 hp2 hb1 hb2 hct hndb hkey
  rcases hcase with ⟨hmiss, -, a, -, hem2, hmg2, -, hct2, -⟩ |
    ⟨e, hhit, -, a, -, hem2, hmg2, -, hct2, -, -⟩
  · -- new edge appended
    have hnotmem : key ∉ d1.data.edgemap.map Prod.fst :=
      (dictGet_eq_none_iff _ _).mp hmiss
    rw [hem] at hnotmem
    refine ⟨?_, ?_, ?_⟩
    · rw [hem2, hem]
      simp only [List.map_append, List.map_cons, List.map_nil]
      rw [List.nodup_append]
      refine ⟨hnodup, List.nodup_singleton _, ?_⟩
      intro a ha hb
      simp only [List.mem_singleton] at hb
      subst hb
      exact hnotmem ha
    · intro hmgf k hk
      rw [hmg2, hmg1] at hmgf
      rw [hem2, hem] at hk
      simp only [List.map_append, List.map_cons, List.map_nil,
        List.mem_append, List.mem_singleton] at hk
      rcases hk with hk | hk
      · exact hdisc hmgf k hk
      · rw [hk]
        rw [key_third key np1.node np2.node nd _ hkey]
        exact hndnone hmgf
    · intro k hk
      rw [hem2, hem] at hk
      rw [hct2]
      simp only [List.map_append, List.map_cons, List.map_nil,
        List.mem_append, List.mem_singleton] at hk
      rcases hk with hk | hk
      · exact ⟨normIdB_mono _ _ _ (hbound k hk).1 hct,
          normIdB_mono _ _ _ (hbound k hk).2.1 hct,
          fun x hx => normIdB_mono _ _ _ ((hbound k hk).2.2 x hx) hct⟩
      · rw [hk]
        exact hkb
  · -- amended in place
    have hfst : d''.data.edgemap.map Prod.fst = d'.data.edgemap.map Prod.fst := by
      rw [hem2, dictSet_fst_of_mem _ _ _ _ hhit, hem]
    refine ⟨?_, ?_, ?_⟩
    · rw [hfst]; exact hnodup
    · intro hmgf k hk
      rw [hmg2, hmg1] at hmgf
      rw [hfst] at hk
      exact hdisc hmgf k hk
    · intro k hk
      rw [hfst] at hk
      rw [hct2]
      exact ⟨normIdB_mono _ _ _ (hbound k hk).1 hct,
        normIdB_mono _ _ _ (hbound k hk).2.1 hct,
        fun x hx => normIdB_mono _ _ _ ((hbound k hk).2.2 x hx) hct⟩

theorem edgeInv_mkDot (dir st mg : Bool) (idg : Option ID) (cm : Option Str)
    (d0 : Dot) (h : mkDot dir st mg idg cm = .ok d0) : EdgeInv d0 := by
  unfold mkDot at h
  split at h
  · exact absurd h (by simp)
  · simp only [Except.ok.injEq] at h
    subst h
    refine ⟨by simp [Dot.data], by simp [Dot.data], by simp [Dot.data]⟩

theorem edgeInv_steps (d0 d : Dot) (h : EdgeSteps d0 d) (h0 : EdgeInv d0) :
    EdgeInv d := by
  induction h with
  | refl => exact h0
  | step d' d'' p1 p2 disc attrs me mne hs hb1 hb2 hbd hop ih =>
    exact edgeInv_step d' d'' p1 p2 disc attrs me mne ih hb1 hb2 hbd hop

theorem nodup_pairs (ks : List EdgeKey) (hn : ks.Nodup)
    (hd : ∀ k ∈ ks, k.2.2 = (none : NormDisc)) :
    List.Pairwise (fun a b : EdgeKey => (a.1, a.2.1) ≠ (b.1, b.2.1)) ks := by
  refine hn.imp_of_mem ?_
  intro a b ha hb hne hab
  apply hne
  obtain ⟨a1, a2, a3⟩ := a
  obtain ⟨b1, b2, b3⟩ := b
  simp only [Prod.mk.injEq] at hab
  have h3a : a3 = none := by simpa using hd _ ha
  have h3b : b3 = none := by simpa using hd _ hb
  simp [hab.1, hab.2, h3a, h3b]

theorem dictGet_isSome_mem [DecidableEq α] (m : Dict α β) (k : α)
    (h : (dictGet k m).isSome = true) : k ∈ m.map Prod.fst := by
  by_contra hc
  rw [← dictGet_eq_none_iff] at hc
  rw [hc] at h
  cases h

/-- C2: edge identity.  (A) In every graph reachable from `mkDot` by edge
calls, a non-multigraph never stores two edges whose keys share the same
normalized node pair; (B) an edge call whose preamble key is already stored
amends that edge in place, adding no key; (C) on a multigraph, an edge call
omitting the discriminant always appends one new edge under a fresh
Nonce-discriminated key, leaving prior edges unchanged. -/
theorem c2_edge_identity :
    (∀ (dir st mg : Bool) (idg : Option ID) (cm : Option Str) (d0 d : Dot),
      mkDot dir st mg idg cm = .ok d0 → EdgeSteps d0 d →
      d.data.multigraph = false →
      List.Pairwise (fun a b : EdgeKey => (a.1, a.2.1) ≠ (b.1, b.2.1))
        (d.data.edgemap.map Prod.fst)) ∧
    (∀ (d d2 : Dot) (p1 p2 : PointArg) (disc : Option ID) (attrs : AttrArgs)
       (me mne : Bool) (key : EdgeKey) (np1 np2 : NormPort) (nd : NormDisc)
       (d1 : Dot),
      edgePreamble d p1 p2 disc = .ok (key, np1, np2, nd, d1) →
      (dictGet key d1.data.edgemap).isSome = true →
      edgeOp d p1 p2 disc attrs me mne = .ok d2 →
      d2.data.edgemap.map Prod.fst = d1.data.edgemap.map Prod.fst ∧
      d2.data.edgemap.length = d1.data.edgemap.length) ∧
    (∀ (d d2 : Dot) (p1 p2 : PointArg) (attrs : AttrArgs) (mne : Bool),
      d.data.multigraph = true →
      (∀ k ∈ d.data.edgemap.map Prod.fst, keyB k d.data.nonceCtr) →
      edgeOp d p1 p2 none attrs false mne = .ok d2 →
      ∃ key e, dictGet key d.data.edgemap = none ∧
        d2.data.edgemap = d.data.edgemap ++ [(key, e)]) := by
  refine ⟨?_, ?_, ?_⟩
  · intro dir st mg idg cm d0 d h0 hs hmg
    have hinv := edgeInv_steps d0 d hs (edgeInv_mkDot dir st mg idg cm d0 h0)
    exact nodup_pairs _ hinv.1 (hinv.2.1 hmg)
  · intro d d2 p1 p2 disc attrs me mne key np1 np2 nd d1 hpre hsome hop
    obtain ⟨key', np1', np2', nd', d1', hpre', hcase⟩ :=
      edgeOp_ok_inv d d2 p1 p2 disc attrs me mne hop
    rw [hpre] at hpre'
    simp only [Except.ok.injEq, Prod.mk.injEq] at hpre'
    obtain ⟨h1, h2, h3, h4, h5⟩ := hpre'
    subst h1; subst h2; subst h3; subst h4; subst h5
    rcases hcase with ⟨hmiss, -⟩ | ⟨e, hhit, -, a, -, hem2, -⟩
    · rw [hmiss] at hsome
      cases hsome
    · have hfst : d2.data.edgemap.map Prod.fst =
          d1.data.edgemap.map Prod.fst := by
        rw [hem2, dictSet_fst_of_mem _ _ _ _ hhit]
      refine ⟨hfst, ?_⟩
      have := congrArg List.length hfst
      simpa using this
  · intro d d2 p1 p2 attrs mne hmg hbound hop
    obtain ⟨key, np1, np2, nd, d1, hpre, hcase⟩ :=
      edgeOp_ok_inv d d2 p1 p2 none attrs false mne hop
    obtain ⟨hp1, hp2, hkey, hdisj⟩ :=
      edgePreamble_ok_inv d d1 p1 p2 none key np1 np2 nd hpre
    rcases hdisj with ⟨-, hmgf, -, -⟩ | ⟨dv, hdv, -, -, -⟩ |
      ⟨-, -, hnd, hem, hct, -, -, -, -⟩
    · rw [hmg] at hmgf
      cases hmgf
    · cases hdv
    · have hmiss : dictGet key d1.data.edgemap = none := by
        by_contra hc
        have hsome : (dictGet key d1.data.edgemap).isSome = true := by
          cases hg : dictGet key d1.data.edgemap
          · exact absurd hg hc
          · rfl
        have hmem := dictGet_isSome_mem _ _ hsome
        rw [hem] at hmem
        have hkb := hbound key hmem
        have h3 := key_third key np1.node np2.node nd _ hkey
        rw [hnd] at h3
        have := hkb.2.2 _ h3
        simp [normIdB] at this
      rcases hcase with ⟨-, -, a, -, hem2, -⟩ | ⟨e, hhit, -⟩
      · refine ⟨key, ⟨np1, np2, nd, d1.data.directed, a⟩, ?_, ?_⟩
        · rw [← hem]
          exact hmiss
        · rw [hem2, hem]
      · rw [hmiss] at hhit
        cases hhit

/-- Witness for C2 at concrete inputs: (A) on the one-edge plain graph,
(B) on a multigraph re-calling an explicit discriminant, (C) on the empty
multigraph. -/
theorem c2_edge_identity_witness :
    (List.Pairwise (fun a b : EdgeKey => (a.1, a.2.1) ≠ (b.1, b.2.1))
      (wP1.data.edgemap.map Prod.fst)) ∧
    (∃ d2, edgeOp wX1 (.id (.str "a".data)) (.id (.str "b".data))
        (some (.str "x".data)) [] false false = .ok d2 ∧
      d2.data.edgemap.map Prod.fst = wX1.data.edgemap.map Prod.fst) ∧
    (∃ key e, dictGet key wM0.data.edgemap = none ∧
      wM1.data.edgemap = wM0.data.edgemap ++ [(key, e)]) := by
  refine ⟨?_, ?_, ?_⟩
  · refine c2_edge_identity.1 false false false none none wP0 wP1 rfl ?_ rfl
    refine EdgeSteps.step wP0 wP0 wP1 (.id (.str "a".data))
      (.id (.str "b".data)) none [] false false (EdgeSteps.refl wP0) ?_ ?_ ?_
      rfl
    · simp [pointB, idB]
    · simp [pointB, idB]
    · simp [discB]
  · exact ⟨wX1, rfl, (c2_edge_identity.2.1 wX1 wX1 (.id (.str "a".data))
      (.id (.str "b".data)) (some (.str "x".data)) [] false false wXK wEdgeA
      wEdgeB (some (.str "x".data)) wX1 rfl rfl rfl).1⟩
  · exact c2_edge_identity.2.2 wM0 wM1 (.id (.str "a".data)) (.id (.str "b".data)) []
      false rfl (fun k hk => by simp [wM0, Dot.data] at hk) rfl

theorem strLE_total (x y : Str) : strLE x y = true ∨ strLE y x = true := by
  induction x generalizing y with
  | nil => exact Or.inl rfl
  | cons a as ih =>
    cases y with
    | nil => exact Or.inr rfl
    | cons b bs =>
      rcases lt_trichotomy a b with h | h | h
      · exact Or.inl (by simp [strLE, h])
      · subst h
        rcases ih bs with h2 | h2
        · exact Or.inl (by simp [strLE, h2])
        · exact Or.inr (by simp [strLE, h2])
      · exact Or.inr (by simp [strLE, h])

theorem strLE_antisymm (x y : Str) (h1 : strLE x y = true)
    (h2 : strLE y x = true) : x = y := by
  induction x generalizing y with
  | nil =>
    cases y with
    | nil => rfl
    | cons b bs => simp [strLE] at h2
  | cons a as ih =>
    cases y with
    | nil => simp [strLE] at h1
    | cons b bs =>
      simp only [strLE, Bool.or_eq_true, Bool.and_eq_true, decide_eq_true_eq,
        beq_iff_eq] at h1 h2
      rcases h1 with h1 | ⟨hab, h1⟩
      · rcases h2 with h2 | ⟨hba, h2⟩
        · exact absurd h2 (lt_asymm h1)
        · exact absurd h1 (by rw [hba]; exact lt_irrefl a)
      · subst hab
        rcases h2 with h2 | ⟨-, h2⟩
        · exact absurd h2 (lt_irrefl a)
        · rw [ih bs h1 h2]

theorem key_comm (x y : NormID) (nd : NormDisc)
    (hx : ∃ s, x = .str s) (hy : ∃ s, y = .str s) :
    (if idKeyLE x y then (x, y, nd) else (y, x, nd)) =
    (if idKeyLE y x then (y, x, nd) else (x, y, nd)) := by
  obtain ⟨sx, rfl⟩ := hx
  obtain ⟨sy, rfl⟩ := hy
  simp only [idKeyLE]
  by_cases hxy : strLE sx sy = true <;> by_cases hyx : strLE sy sx = true
  · have := strLE_antisymm sx sy hxy hyx
    subst this
    rfl
  · rw [if_pos hxy, if_neg hyx]
  · rw [if_neg hxy, if_pos hyx]
  · rcases strLE_total sx sy with h | h
    · exact absurd h hxy
    · exact absurd h hyx

theorem dictSet_append_fresh [DecidableEq α] (m : Dict α β) (k : α) (v0 v : β)
    (h : dictGet k m = none) :
    dictSet (m ++ [(k, v0)]) k v = m ++ [(k, v)] := by
  induction m with
  | nil => simp [dictSet]
  | cons kv m ih =>
    obtain ⟨k', v'⟩ := kv
    simp only [dictGet] at h
    by_cases hk : k' = k
    · rw [if_pos hk] at h; cases h
    · rw [if_neg hk] at h
      simp [dictSet, hk, ih h]

theorem dictGet_last_fresh [DecidableEq α] (m : Dict α β) (k : α) (v : β)
    (h : dictGet k m = none) : dictGet k (m ++ [(k, v)]) = some v := by
  rw [dictGet_append, h]
  show dictGet k [(k, v)] = some v
  unfold dictGet
  rw [if_pos rfl]

theorem pre_nonmulti_ids (d : Dot) (i1 i2 : ID)
    (h : d.data.multigraph = false) :
    edgePreamble d (.id i1) (.id i2) none = .ok
      ((if d.data.directed || idKeyLE (normalizeId i1) (normalizeId i2) then
          (normalizeId i1, normalizeId i2, none)
        else (normalizeId i2, normalizeId i1, none)),
        ⟨normalizeId i1, none, none, true⟩,
        ⟨normalizeId i2, none, none, true⟩, none, d) := by
  have hp1 : mkNormPort (.id i1) = .ok ⟨normalizeId i1, none, none, true⟩ := rfl
  have hp2 : mkNormPort (.id i2) = .ok ⟨normalizeId i2, none, none, true⟩ := rfl
  unfold edgePreamble
  simp only [hp1, hp2, h]
  rfl

theorem updatePorts_swap (na nb : Str) (nd : NormDisc) (dir : Bool)
    (ats : Attrs) :
    updatePorts ⟨⟨.str na, none, none, true⟩, ⟨.str nb, none, none, true⟩,
        nd, dir, ats⟩
      ⟨.str nb, none, none, true⟩ ⟨.str na, none, none, true⟩ =
    ⟨⟨.str nb, none, none, true⟩, ⟨.str na, none, none, true⟩,
      nd, dir, ats⟩ := by
  unfold updatePorts
  by_cases h : nb = na
  · subst h
    simp
  · have hne : (NormID.str nb) ≠ (NormID.str na) := by
      intro hc
      injection hc with h2
      exact h h2
    simp [hne]

/-- C3 (amended): on a non-directed NON-multigraph, for a node pair whose
key is not yet stored, `edge(a,b)` then `edge(b,a)` leave exactly one
stored edge under that pair's key; the second call merges its attributes
after the first call's and swaps the stored endpoints, so the edge renders
as `b -- a`.  (The original claim, quantified over every non-directed
graph, fails on multigraphs: see the counterexample.) -/
theorem c3_swap_single_edge (d : Dot) (a b : Str) (attrs1 attrs2 : AttrArgs)
    (key : EdgeKey)
    (hmg : d.data.multigraph = false) (hdir : d.data.directed = false)
    (hkey : key = (if idKeyLE (.str (normStr a)) (.str (normStr b)) then
        ((.str (normStr a), .str (normStr b), none) : EdgeKey)
      else (.str (normStr b), .str (normStr a), none)))
    (hmiss : dictGet key d.data.edgemap = none) :
    ∃ a1 a2 d1 d2,
      setAttrs [] attrs1 true = .ok a1 ∧
      setAttrs a1 attrs2 true = .ok a2 ∧
      edgeOp d (.id (.str a)) (.id (.str b)) none attrs1 false false = .ok d1 ∧
      edgeOp d1 (.id (.str b)) (.id (.str a)) none attrs2 false false = .ok d2 ∧
      d2.data.edgemap = d.data.edgemap ++
        [(key, ⟨⟨.str (normStr b), none, none, true⟩,
          ⟨.str (normStr a), none, none, true⟩, none, false, a2⟩)] ∧
      (d2.data.edgemap.map Prod.fst).count key = 1 ∧
      ∀ fuel st, Edge.dot fuel ⟨⟨.str (normStr b), none, none, true⟩,
          ⟨.str (normStr a), none, none, true⟩, none, false, a2⟩ st =
        some (normStr b ++ " -- ".data ++ normStr a, st) := by
  obtain ⟨a1, ha1⟩ := setAttrs_ok attrs1 []
  obtain ⟨a2, ha2⟩ := setAttrs_ok attrs2 a1
  have hpre1 : edgePreamble d (.id (.str a)) (.id (.str b)) none = .ok
      (key, ⟨.str (normStr a), none, none, true⟩,
        ⟨.str (normStr b), none, none, true⟩, none, d) := by
    have h : edgePreamble d (.id (.str a)) (.id (.str b)) none = .ok
        ((if d.data.directed ||
            idKeyLE (NormID.str (normStr a)) (NormID.str (normStr b)) then
            ((NormID.str (normStr a), NormID.str (normStr b),
              (none : NormDisc)) : EdgeKey)
          else (NormID.str (normStr b), NormID.str (normStr a), none)),
          ⟨NormID.str (normStr a), none, none, true⟩,
          ⟨NormID.str (normStr b), none, none, true⟩, none, d) :=
      pre_nonmulti_ids d (.str a) (.str b) hmg
    rw [hdir] at h
    simp only [Bool.false_or] at h
    rw [← hkey] at h
    exact h
  have hop1 := edgeOp_new d d (.id (.str a)) (.id (.str b)) none attrs1 false
    key ⟨.str (normStr a), none, none, true⟩
    ⟨.str (normStr b), none, none, true⟩ none a1 hpre1 hmiss ha1
  obtain ⟨d1, hop1, hd1em, hd1mg, hd1dir⟩ :
      ∃ d1, edgeOp d (.id (.str a)) (.id (.str b)) none attrs1 false false =
          .ok d1 ∧
        d1.data.edgemap = d.data.edgemap ++
          [(key, ⟨⟨.str (normStr a), none, none, true⟩,
            ⟨.str (normStr b), none, none, true⟩, none, false, a1⟩)] ∧
        d1.data.multigraph = false ∧ d1.data.directed = false :=
    ⟨_, hop1, by rw [hdir]; rfl, hmg, hdir⟩
  have hpre2 : edgePreamble d1 (.id (.str b)) (.id (.str a)) none = .ok
      (key, ⟨.str (normStr b), none, none, true⟩,
        ⟨.str (normStr a), none, none, true⟩, none, d1) := by
    have h : edgePreamble d1 (.id (.str b)) (.id (.str a)) none = .ok
        ((if d1.data.directed ||
            idKeyLE (NormID.str (normStr b)) (NormID.str (normStr a)) then
            ((NormID.str (normStr b), NormID.str (normStr a),
              (none : NormDisc)) : EdgeKey)
          else (NormID.str (normStr a), NormID.str (normStr b), none)),
          ⟨NormID.str (normStr b), none, none, true⟩,
          ⟨NormID.str (normStr a), none, none, true⟩, none, d1) :=
      pre_nonmulti_ids d1 (.str b) (.str a) hd1mg
    rw [hd1dir] at h
    simp only [Bool.false_or] at h
    rw [← key_comm (NormID.str (normStr a)) (NormID.str (normStr b)) none
      ⟨_, rfl⟩ ⟨_, rfl⟩] at h
    rw [← hkey] at h
    exact h
  have hhit : dictGet key d1.data.edgemap = some
      ⟨⟨.str (normStr a), none, none, true⟩,
        ⟨.str (normStr b), none, none, true⟩, none, false, a1⟩ := by
    rw [hd1em]
    exact dictGet_last_fresh _ _ _ hmiss
  have hattrs2 : setAttrs (updatePorts
      (⟨⟨.str (normStr a), none, none, true⟩,
        ⟨.str (normStr b), none, none, true⟩, none, false, a1⟩ : Edge)
      ⟨.str (normStr b), none, none, true⟩
      ⟨.str (normStr a), none, none, true⟩).attrs attrs2 true = .ok a2 := by
    rw [updatePorts_swap]
    exact ha2
  have hop2 := edgeOp_amend d1 d1 (.id (.str b)) (.id (.str a)) none attrs2
    false key ⟨.str (normStr b), none, none, true⟩
    ⟨.str (normStr a), none, none, true⟩ none
    ⟨⟨.str (normStr a), none, none, true⟩,
      ⟨.str (normStr b), none, none, true⟩, none, false, a1⟩ a2
    hpre2 hhit hattrs2
  rw [updatePorts_swap] at hop2
  obtain ⟨d2, hop2, hd2em⟩ :
      ∃ d2, edgeOp d1 (.id (.str b)) (.id (.str a)) none attrs2 false false =
          .ok d2 ∧
        d2.data.edgemap = d.data.edgemap ++
          [(key, ⟨⟨.str (normStr b), none, none, true⟩,
            ⟨.str (normStr a), none, none, true⟩, none, false, a2⟩)] :=
    ⟨_, hop2, by
      show dictSet d1.data.edgemap key _ = _
      rw [hd1em]
      exact dictSet_append_fresh _ _ _ _ hmiss⟩
  refine ⟨a1, a2, d1, d2, ha1, ha2, hop1, hop2, hd2em, ?_, ?_⟩
  · have h0 : key ∉ d.data.edgemap.map Prod.fst :=
      (dictGet_eq_none_iff _ _).mp hmiss
    rw [hd2em]
    simp [List.count_append, List.count_eq_zero_of_not_mem h0,
      List.count_cons]
  · intro fuel st
    rfl

/-- C3 counterexample: on a non-directed multigraph (a legal `Dot`
produced by `mkDot`), `edge(a,b)` followed by `edge(b,a)` stores TWO
edges, not one — each call mints a fresh Nonce discriminant, so the keys
differ and no amending occurs. -/
theorem c3_two_edges_on_nondirected_multigraph :
    mkDot false false true none none = .ok wM0 ∧
    wM0.data.directed = false ∧
    ∃ m1 m2,
      edgeOp wM0 (.id (.str "a".data)) (.id (.str "b".data)) none [] false
          false = .ok m1 ∧
      edgeOp m1 (.id (.str "b".data)) (.id (.str "a".data)) none [] false
          false = .ok m2 ∧
      m2.data.edgemap.length = 2 := by
  refine ⟨rfl, rfl, _, _, rfl, rfl, rfl⟩

/-- Witness for C3 at concrete inputs: the empty non-directed graph with
`a = "a"`, `b = "b"`. -/
theorem c3_swap_single_edge_witness :
    ∃ a1 a2 d1 d2,
      setAttrs [] [] true = .ok a1 ∧
      setAttrs a1 [] true = .ok a2 ∧
      edgeOp wP0 (.id (.str "a".data)) (.id (.str "b".data)) none [] false
          false = .ok d1 ∧
      edgeOp d1 (.id (.str "b".data)) (.id (.str "a".data)) none [] false
          false = .ok d2 ∧
      d2.data.edgemap = wP0.data.edgemap ++
        [(((.str "a".data, .str "b".data, none) : EdgeKey),
          ⟨⟨.str "b".data, none, none, true⟩, ⟨.str "a".data, none, none,
            true⟩, none, false, a2⟩)] ∧
      (d2.data.edgemap.map Prod.fst).count
        (.str "a".data, .str "b".data, none) = 1 ∧
      ∀ fuel st, Edge.dot fuel ⟨⟨.str "b".data, none, none, true⟩,
          ⟨.str "a".data, none, none, true⟩, none, false, a2⟩ st =
        some ("b -- a".data, st) :=
  c3_swap_single_edge wP0 "a".data "b".data [] []
    (.str "a".data, .str "b".data, none) rfl rfl rfl rfl

theorem avoid_contains_iff (st : RState) (s : Str) :
    st.avoid.contains s = true ↔ s ∈ st.avoid := List.elem_iff

theorem nonceSearch_spec (n : Nonce) (fuel : Nat) :
    ∀ (s : Nat) (st : RState) (r : Str) (st' : RState),
    nonceSearch n fuel s st = some (r, st') →
    ∃ N, s < N ∧ r = nonceCandidate n.pfx N ∧
      nonceCandidate n.pfx N ∉ st.avoid ∧
      (∀ k, s < k → k < N → nonceCandidate n.pfx k ∈ st.avoid) ∧
      st' = { avoid := nonceCandidate n.pfx N :: st.avoid,
              nonceId := st.nonceId ++ [(n, nonceCandidate n.pfx N)],
              pfxSeqno := dictSet st.pfxSeqno n.pfx N } := by
  induction fuel with
  | zero => intro s st r st' h; cases h
  | succ fuel ih =>
    intro s st r st' h
    unfold nonceSearch at h
    by_cases hc : st.avoid.contains (nonceCandidate n.pfx (s + 1)) = true
    · rw [if_pos hc] at h
      obtain ⟨N, hN1, hN2, hN3, hN4, hN5⟩ := ih (s + 1) st r st' h
      refine ⟨N, by omega, hN2, hN3, ?_, hN5⟩
      intro k hk1 hk2
      by_cases hks : k = s + 1
      · subst hks
        exact (avoid_contains_iff st _).mp hc
      · exact hN4 k (by omega) hk2
    · rw [if_neg hc] at h
      injection h with h1
      injection h1 with hr hst
      refine ⟨s + 1, by omega, hr.symm, ?_, by omega, hst.symm⟩
      intro hmem
      exact hc ((avoid_contains_iff st _).mpr hmem)

theorem resolve_fresh (st : RState) (n : Nonce) (fuel : Nat) (r : Str)
    (st' : RState) (hfresh : dictGet n st.nonceId = none)
    (hres : resolve fuel st (.nonce n) = some (r, st')) :
    nonceSearch n fuel ((dictGet n.pfx st.pfxSeqno).getD 0) st =
      some (r, st') := by
  have hres2 : (match dictGet n st.nonceId with
      | some c => some (c, st)
      | none => nonceSearch n fuel ((dictGet n.pfx st.pfxSeqno).getD 0) st) =
      some (r, st') := hres
  rw [hfresh] at hres2
  exact hres2

theorem c1_minimal (st : RState) (n : Nonce) (fuel : Nat) (r : Str)
    (st' : RState) (hs : SeqnoSound st)
    (hfresh : dictGet n st.nonceId = none)
    (hres : resolve fuel st (.nonce n) = some (r, st')) :
    ∃ N, 1 ≤ N ∧ r = nonceCandidate n.pfx N ∧
      nonceCandidate n.pfx N ∉ st.avoid ∧
      (∀ k, 1 ≤ k → k < N → nonceCandidate n.pfx k ∈ st.avoid) ∧
      st' = { avoid := nonceCandidate n.pfx N :: st.avoid,
              nonceId := st.nonceId ++ [(n, nonceCandidate n.pfx N)],
              pfxSeqno := dictSet st.pfxSeqno n.pfx N } := by
  have h := nonceSearch_spec n fuel _ st r st' (resolve_fresh st n fuel r st' hfresh hres)
  obtain ⟨N, hN1, hN2, hN3, hN4, hN5⟩ := h
  refine ⟨N, by omega, hN2, hN3, ?_, hN5⟩
  intro k hk1 hk2
  by_cases hks : k ≤ (dictGet n.pfx st.pfxSeqno).getD 0
  · exact hs n.pfx k hk1 hks
  · exact hN4 k (by omega) hk2

theorem seqnoSound_step (st : RState) (n : Nonce) (N : Nat)
    (hs : SeqnoSound st)
    (hskip : ∀ k, 1 ≤ k → k < N → nonceCandidate n.pfx k ∈ st.avoid) :
    SeqnoSound { avoid := nonceCandidate n.pfx N :: st.avoid,
                 nonceId := st.nonceId ++ [(n, nonceCandidate n.pfx N)],
                 pfxSeqno := dictSet st.pfxSeqno n.pfx N } := by
  intro p k hk1 hk2
  by_cases hp : p = n.pfx
  · subst hp
    rw [dictGet_set_self] at hk2
    simp only [Option.getD_some] at hk2
    by_cases hkN : k = N
    · subst hkN
      exact List.mem_cons_self _ _
    · exact List.mem_cons_of_mem _ (hskip k hk1 (by omega))
  · rw [dictGet_set_ne _ _ _ _ (fun he => hp he.symm)] at hk2
    exact List.mem_cons_of_mem _ (hs p k hk1 hk2)

theorem rinv_step (init st st' : RState) (x : NormID) (fuel : Nat) (r : Str)
    (hinv : RInv init st) (hres : resolve fuel st x = some (r, st')) :
    RInv init st' := by
  obtain ⟨hs, assigned, hav, hni⟩ := hinv
  cases x with
  | str s =>
    have hres2 : (some (s, st) : Option (Str × RState)) = some (r, st') := hres
    injection hres2 with h1
    injection h1 with hr hst
    rw [← hst]
    exact ⟨hs, assigned, hav, hni⟩
  | nonce n =>
    have hres2 : (match dictGet n st.nonceId with
        | some c => some (c, st)
        | none =>
          nonceSearch n fuel ((dictGet n.pfx st.pfxSeqno).getD 0) st) =
        some (r, st') := hres
    cases hcache : dictGet n st.nonceId with
    | some c =>
      rw [hcache] at hres2
      injection hres2 with h1
      injection h1 with hr hst
      rw [← hst]
      exact ⟨hs, assigned, hav, hni⟩
    | none =>
      rw [hcache] at hres2
      obtain ⟨N, hN1, hN2, hN3, hN4, hN5⟩ :=
        nonceSearch_spec n fuel _ st r st' hres2
      have hskip : ∀ k, 1 ≤ k → k < N → nonceCandidate n.pfx k ∈ st.avoid := by
        intro k hk1 hk2
        by_cases hks : k ≤ (dictGet n.pfx st.pfxSeqno).getD 0
        · exact hs n.pfx k hk1 hks
        · exact hN4 k (by omega) hk2
      subst hN5
      refine ⟨seqnoSound_step st n N hs hskip,
        nonceCandidate n.pfx N :: assigned, ?_, ?_⟩
      · simp [hav]
      · simp [hni, List.reverse_cons, List.append_assoc]

theorem rinv_reach (init st : RState) (h : RReach init st)
    (h0 : RInv init init) : RInv init st := by
  induction h with
  | refl => exact h0
  | step st1 st2 x fuel r hr hres ih => exact rinv_step init st1 st2 x fuel r ih hres

theorem rinv_init (d : Dot) (m : Mien) : RInv (initResolver d m) (initResolver d m) := by
  refine ⟨?_, [], rfl, by simp [initResolver]⟩
  intro p k hk1 hk2
  simp [initResolver, dictGet] at hk2
  omega

theorem head_ne (x y : Char) (xs ys : List Char) (h : x ≠ y) :
    x :: xs ≠ y :: ys := by
  intro hc
  injection hc with h1 h2
  exact h h1

/-- C1 (amended): in any resolver state reachable from a graph's initial
resolver, a fresh placeholder with prefix `p` resolves to the NORMALIZED
candidate `_normalize(p + "_" + N)` where N is the smallest positive
integer whose normalized candidate is neither among the collected literal
identifiers nor among the resolutions already assigned (the reachable
state's avoid list is exactly the assigned resolutions prepended to the
collected identifiers); the resolution is recorded in the avoid list and
the per-placeholder cache.  (The original claim promised the PLAIN
concatenation `prefix_N`, which fails for prefixes that normalize to a
quoted form: see the counterexample.) -/
theorem c1_nonce_resolution_minimal (d : Dot) (m : Mien) (st st' : RState) (n : Nonce)
    (fuel : Nat) (r : Str)
    (hreach : RReach (initResolver d m) st)
    (hfresh : dictGet n st.nonceId = none)
    (hres : resolve fuel st (.nonce n) = some (r, st')) :
    ∃ N assigned,
      1 ≤ N ∧
      st.avoid = assigned ++ (initResolver d m).avoid ∧
      r = normStr (n.pfx ++ '_' :: (Nat.repr N).data) ∧
      r ∉ st.avoid ∧
      (∀ k, 1 ≤ k → k < N →
        normStr (n.pfx ++ '_' :: (Nat.repr k).data) ∈ st.avoid) ∧
      st'.avoid = r :: st.avoid ∧
      st'.nonceId = st.nonceId ++ [(n, r)] := by
  obtain ⟨hs, assigned, hav, hni⟩ := rinv_reach _ _ hreach (rinv_init d m)
  obtain ⟨N, hN1, hN2, hN3, hN4, hN5⟩ := c1_minimal st n fuel r st' hs hfresh hres
  subst hN2
  refine ⟨N, assigned, hN1, hav, rfl, hN3, hN4, ?_, ?_⟩
  · rw [hN5]
  · rw [hN5]

/-- C1 counterexample: a placeholder with prefix `"with space"` in an
otherwise empty graph serializes and resolves to the QUOTED text
`"with space_1"` (with quote characters), which differs from the claim's
plain concatenation `prefix + "_" + N` for every N. -/
theorem c1_quoted_resolution_not_plain_concat :
    mkDot false false false none none = .ok wC1d0 ∧
    nodeOp wC1d0 (.nonce ⟨0, "with space".data⟩) [] = .ok wC1c1 ∧
    dotStr 100 wC1c1 =
      .ok "graph \x7b\n    \"with space_1\"\n\x7d\n".data ∧
    (∃ st', resolve 10 (initResolver wC1c1 (mienOf wC1c1))
        (.nonce ⟨0, "with space".data⟩) =
      some ("\"with space_1\"".data, st')) ∧
    ∀ N : Nat, "\"with space_1\"".data ≠
      "with space".data ++ '_' :: (Nat.repr N).data := by
  refine ⟨rfl, rfl, rfl, ⟨_, rfl⟩, ?_⟩
  intro N
  show ¬ ('"' :: "with space_1\"".data =
    'w' :: ("ith space".data ++ '_' :: (Nat.repr N).data))
  exact head_ne _ _ _ _ (by decide)

/-- Witness for C1 on the spec's own example: a graph holding the literal
node `_nonce_1` and a placeholder with the default prefix `_nonce`; the
placeholder resolves to `_nonce_2`. -/
theorem c1_nonce_resolution_minimal_witness :
    mkDot false false false none none = .ok wC1d0 ∧
    nodeOp wC1d0 (.str "_nonce_1".data) [] = .ok wC1d1 ∧
    nodeOp wC1d1 (.nonce ⟨0, "_nonce".data⟩) [] = .ok wC1d2 ∧
    ∃ st',
      resolve 10 (initResolver wC1d2 (mienOf wC1d2))
        (.nonce ⟨0, "_nonce".data⟩) = some ("_nonce_2".data, st') ∧
      ∃ N assigned, 1 ≤ N ∧
        (initResolver wC1d2 (mienOf wC1d2)).avoid =
          assigned ++ (initResolver wC1d2 (mienOf wC1d2)).avoid ∧
        ("_nonce_2".data : Str) =
          normStr ("_nonce".data ++ '_' :: (Nat.repr N).data) ∧
        "_nonce_2".data ∉ (initResolver wC1d2 (mienOf wC1d2)).avoid ∧
        (∀ k, 1 ≤ k → k < N →
          normStr ("_nonce".data ++ '_' :: (Nat.repr k).data) ∈
            (initResolver wC1d2 (mienOf wC1d2)).avoid) ∧
        st'.avoid =
          "_nonce_2".data :: (initResolver wC1d2 (mienOf wC1d2)).avoid ∧
        st'.nonceId = (initResolver wC1d2 (mienOf wC1d2)).nonceId ++
          [(⟨0, "_nonce".data⟩, "_nonce_2".data)] :=
  ⟨rfl, rfl, rfl, _, rfl,
    c1_nonce_resolution_minimal wC1d2 (mienOf wC1d2) _ _ ⟨0, "_nonce".data⟩ 10
      "_nonce_2".data RReach.refl rfl rfl⟩

theorem dictGet_update_nodup [DecidableEq α] (s : Dict α β) (k : α) :
    ∀ t : Dict α β, (s.map Prod.fst).Nodup →
    dictGet k (dictUpdate t s) =
      match dictGet k s with
      | some v => some v
      | none => dictGet k t := by
  induction s with
  | nil =>
    intro t _
    simp [dictUpdate, dictGet]
  | cons kv s ih =>
    intro t hn
    obtain ⟨k1, v1⟩ := kv
    have hn' := (List.nodup_cons.mp hn).2
    have hk1 : k1 ∉ s.map Prod.fst := (List.nodup_cons.mp hn).1
    show dictGet k (dictUpdate (dictSet t k1 v1) s) = _
    rw [ih (dictSet t k1 v1) hn']
    have hc : dictGet k ((k1, v1) :: s) =
        if k1 = k then some v1 else dictGet k s := rfl
    rw [hc]
    by_cases h : k1 = k
    · rw [if_pos h]
      subst h
      have h0 : dictGet k1 s = none := (dictGet_eq_none_iff s k1).mpr hk1
      rw [h0, dictGet_set_self]
    · rw [if_neg h]
      cases hg : dictGet k s with
      | some v => rfl
      | none => exact dictGet_set_ne t k1 k v1 h

theorem chainGet_append (src : GraphData → Attrs) (k : Str)
    (l1 l2 : List GraphData) :
    chainGet src k (l1 ++ l2) =
      match chainGet src k l1 with
      | some v => some v
      | none => chainGet src k l2 := by
  induction l1 with
  | nil => rfl
  | cons g gs ih =>
    show (match dictGet k (src g) with
      | some v => some v
      | none => chainGet src k (gs ++ l2)) =
      match (match dictGet k (src g) with
        | some v => some v
        | none => chainGet src k gs) with
      | some v => some v
      | none => chainGet src k l2
    cases hg : dictGet k (src g) with
    | some v => rfl
    | none => exact ih

theorem fold_get_gen (fld : Mien → Attrs) (src : GraphData → Attrs)
    (hc : ∀ m g, fld (mienUpd m g) = dictUpdate (fld m) (src g))
    (gs : List GraphData) (k : Str) :
    ∀ m0 : Mien, (∀ g ∈ gs, ((src g).map Prod.fst).Nodup) →
    dictGet k (fld (gs.foldl mienUpd m0)) =
      match chainGet src k gs.reverse with
      | some v => some v
      | none => dictGet k (fld m0) := by
  induction gs with
  | nil =>
    intro m0 _
    rfl
  | cons g gs ih =>
    intro m0 hn
    show dictGet k (fld (gs.foldl mienUpd (mienUpd m0 g))) = _
    rw [ih (mienUpd m0 g) (fun g' hg' => hn g' (List.mem_cons_of_mem _ hg'))]
    rw [hc m0 g]
    rw [dictGet_update_nodup _ _ _ (hn g (List.mem_cons_self _ _))]
    rw [show (g :: gs).reverse = gs.reverse ++ [g] from List.reverse_cons g gs]
    rw [chainGet_append]
    have hG : chainGet src k [g] =
        match dictGet k (src g) with
        | some v => some v
        | none => none := rfl
    rw [hG]
    cases h1 : chainGet src k gs.reverse with
    | some v => rfl
    | none =>
      cases h2 : dictGet k (src g) with
      | some v => rfl
      | none => rfl

theorem dictGet_cons_self [DecidableEq α] (k : α) (v : β) (m : Dict α β) :
    dictGet k ((k, v) :: m) = some v := by
  show (if k = k then some v else dictGet k m) = some v
  rw [if_pos rfl]

theorem dictGet_cons_ne [DecidableEq α] (k1 k : α) (v : β) (m : Dict α β)
    (h : k1 ≠ k) : dictGet k ((k1, v) :: m) = dictGet k m := by
  show (if k1 = k then some v else dictGet k m) = dictGet k m
  rw [if_neg h]

theorem roleGet_update_nodup (s : Roles) (r : NormID) (a : Str) :
    ∀ t : Roles, (s.map Prod.fst).Nodup →
    (∀ rv ∈ s, ((rv.2.map Prod.fst : List Str)).Nodup) →
    roleGet (updateRoles t s) r a =
      match roleGet s r a with
      | some v => some v
      | none => roleGet t r a := by
  induction s with
  | nil =>
    intro t _ _
    rfl
  | cons rv s ih =>
    intro t hr hb
    obtain ⟨r1, b1⟩ := rv
    have hr' := (List.nodup_cons.mp hr).2
    have hr1 : r1 ∉ s.map Prod.fst := (List.nodup_cons.mp hr).1
    have hb1 : ((b1.map Prod.fst : List Str)).Nodup :=
      hb (r1, b1) (List.mem_cons_self _ _)
    have hb' : ∀ rv ∈ s, ((rv.2.map Prod.fst : List Str)).Nodup :=
      fun rv h => hb rv (List.mem_cons_of_mem _ h)
    show roleGet (updateRoles (match dictGet r1 t with
        | some ta => dictSet t r1 (dictUpdate ta b1)
        | none => dictSet t r1 b1) s) r a = _
    rw [ih _ hr' hb']
    generalize hstep : (match dictGet r1 t with
        | some ta => dictSet t r1 (dictUpdate ta b1)
        | none => dictSet t r1 b1) = step
    by_cases h : r1 = r
    · subst h
      have h0 : dictGet r1 s = none := (dictGet_eq_none_iff s r1).mpr hr1
      have hs0 : roleGet s r1 a = none := by
        unfold roleGet
        rw [h0]
      rw [hs0]
      have hcons : roleGet ((r1, b1) :: s) r1 a = dictGet a b1 := by
        unfold roleGet
        rw [dictGet_cons_self]
      rw [hcons]
      cases ht : dictGet r1 t with
      | some ta =>
        rw [ht] at hstep
        have h3 : dictSet t r1 (dictUpdate ta b1) = step := hstep
        rw [← h3]
        have h1 : roleGet (dictSet t r1 (dictUpdate ta b1)) r1 a =
            dictGet a (dictUpdate ta b1) := by
          unfold roleGet
          rw [dictGet_set_self]
        rw [h1, dictGet_update_nodup b1 a ta hb1]
        have h2 : roleGet t r1 a = dictGet a ta := by
          unfold roleGet
          rw [ht]
        rw [h2]
        cases dictGet a b1 <;> rfl
      | none =>
        rw [ht] at hstep
        have h3 : dictSet t r1 b1 = step := hstep
        rw [← h3]
        have h1 : roleGet (dictSet t r1 b1) r1 a = dictGet a b1 := by
          unfold roleGet
          rw [dictGet_set_self]
        rw [h1]
        have h2 : roleGet t r1 a = none := by
          unfold roleGet
          rw [ht]
        rw [h2]
        cases dictGet a b1 <;> rfl
    · have hcons : roleGet ((r1, b1) :: s) r a = roleGet s r a := by
        unfold roleGet
        rw [dictGet_cons_ne _ _ _ _ h]
      rw [hcons]
      have hstepget : roleGet step r a = roleGet t r a := by
        cases ht : dictGet r1 t with
        | some ta =>
          rw [ht] at hstep
          have h3 : dictSet t r1 (dictUpdate ta b1) = step := hstep
          rw [← h3]
          unfold roleGet
          rw [dictGet_set_ne _ _ _ _ h]
        | none =>
          rw [ht] at hstep
          have h3 : dictSet t r1 b1 = step := hstep
          rw [← h3]
          unfold roleGet
          rw [dictGet_set_ne _ _ _ _ h]
      rw [hstepget]

theorem chainRoleGet_append (src : GraphData → Roles) (r : NormID) (a : Str)
    (l1 l2 : List GraphData) :
    chainRoleGet src r a (l1 ++ l2) =
      match chainRoleGet src r a l1 with
      | some v => some v
      | none => chainRoleGet src r a l2 := by
  induction l1 with
  | nil => rfl
  | cons g gs ih =>
    show (match roleGet (src g) r a with
      | some v => some v
      | none => chainRoleGet src r a (gs ++ l2)) =
      match (match roleGet (src g) r a with
        | some v => some v
        | none => chainRoleGet src r a gs) with
      | some v => some v
      | none => chainRoleGet src r a l2
    cases hg : roleGet (src g) r a with
    | some v => rfl
    | none => exact ih

theorem fold_role_gen (fld : Mien → Roles) (src : GraphData → Roles)
    (hc : ∀ m g, fld (mienUpd m g) = updateRoles (fld m) (src g))
    (gs : List GraphData) (r : NormID) (a : Str) :
    ∀ m0 : Mien,
    (∀ g ∈ gs, ((src g).map Prod.fst).Nodup ∧
      ∀ rv ∈ src g, ((rv.2.map Prod.fst : List Str)).Nodup) →
    roleGet (fld (gs.foldl mienUpd m0)) r a =
      match chainRoleGet src r a gs.reverse with
      | some v => some v
      | none => roleGet (fld m0) r a := by
  induction gs with
  | nil =>
    intro m0 _
    rfl
  | cons g gs ih =>
    intro m0 hn
    show roleGet (fld (gs.foldl mienUpd (mienUpd m0 g))) r a = _
    rw [ih (mienUpd m0 g) (fun g' hg' => hn g' (List.mem_cons_of_mem _ hg'))]
    rw [hc m0 g]
    rw [roleGet_update_nodup _ r a _ (hn g (List.mem_cons_self _ _)).1
      (hn g (List.mem_cons_self _ _)).2]
    rw [show (g :: gs).reverse = gs.reverse ++ [g] from List.reverse_cons g gs]
    rw [chainRoleGet_append]
    have hG : chainRoleGet src r a [g] =
        match roleGet (src g) r a with
        | some v => some v
        | none => none := rfl
    rw [hG]
    cases h1 : chainRoleGet src r a gs.reverse with
    | some v => rfl
    | none =>
      cases h2 : roleGet (src g) r a with
      | some v => rfl
      | none => rfl

theorem mien_view (d : Dot) (k : Str) (r : NormID) (a : Str)
    (hn : NodupChain d) :
    dictGet k (mienOf d).d_grapha =
      chainGet (fun g => g.blk.d_grapha) k (themeStack d) ∧
    dictGet k (mienOf d).d_nodea =
      chainGet (fun g => g.blk.d_nodea) k (themeStack d) ∧
    dictGet k (mienOf d).d_edgea =
      chainGet (fun g => g.blk.d_edgea) k (themeStack d) ∧
    dictGet k (mienOf d).grapha =
      chainGet (fun g => g.blk.grapha) k (themeStack d) ∧
    roleGet (mienOf d).graphroles r a =
      chainRoleGet (fun g => g.graphroles) r a (themeStack d) ∧
    roleGet (mienOf d).noderoles r a =
      chainRoleGet (fun g => g.noderoles) r a (themeStack d) ∧
    roleGet (mienOf d).edgeroles r a =
      chainRoleGet (fun g => g.edgeroles) r a (themeStack d) := by
  obtain ⟨data, th⟩ := d
  cases th with
  | none =>
    refine ⟨?_, ?_, ?_, ?_, ?_, ?_, ?_⟩
    · show dictGet k data.blk.d_grapha = match dictGet k data.blk.d_grapha
        with | some v => some v | none => none
      cases dictGet k data.blk.d_grapha <;> rfl
    · show dictGet k data.blk.d_nodea = match dictGet k data.blk.d_nodea
        with | some v => some v | none => none
      cases dictGet k data.blk.d_nodea <;> rfl
    · show dictGet k data.blk.d_edgea = match dictGet k data.blk.d_edgea
        with | some v => some v | none => none
      cases dictGet k data.blk.d_edgea <;> rfl
    · show dictGet k data.blk.grapha = match dictGet k data.blk.grapha
        with | some v => some v | none => none
      cases dictGet k data.blk.grapha <;> rfl
    · show roleGet data.graphroles r a = match roleGet data.graphroles r a
        with | some v => some v | none => none
      cases roleGet data.graphroles r a <;> rfl
    · show roleGet data.noderoles r a = match roleGet data.noderoles r a
        with | some v => some v | none => none
      cases roleGet data.noderoles r a <;> rfl
    · show roleGet data.edgeroles r a = match roleGet data.edgeroles r a
        with | some v => some v | none => none
      cases roleGet data.edgeroles r a <;> rfl
  | some t =>
    have hrev : ∀ g ∈ (themeStack (Dot.mk data (some t))).reverse,
        g ∈ themeStack (Dot.mk data (some t)) :=
      fun g hg => List.mem_reverse.mp hg
    refine ⟨?_, ?_, ?_, ?_, ?_, ?_, ?_⟩
    · have hfold := fold_get_gen (fun m => m.d_grapha)
        (fun g => g.blk.d_grapha) (fun m g => rfl)
        ((themeStack (Dot.mk data (some t))).reverse) k
        ⟨[], [], [], [], [], [], []⟩
        (fun g hg => (hn g (hrev g hg)).1)
      rw [List.reverse_reverse] at hfold
      refine hfold.trans ?_
      cases chainGet (fun g => g.blk.d_grapha) k
        (themeStack (Dot.mk data (some t))) <;> rfl
    · have hfold := fold_get_gen (fun m => m.d_nodea)
        (fun g => g.blk.d_nodea) (fun m g => rfl)
        ((themeStack (Dot.mk data (some t))).reverse) k
        ⟨[], [], [], [], [], [], []⟩
        (fun g hg => (hn g (hrev g hg)).2.1)
      rw [List.reverse_reverse] at hfold
      refine hfold.trans ?_
      cases chainGet (fun g => g.blk.d_nodea) k
        (themeStack (Dot.mk data (some t))) <;> rfl
    · have hfold := fold_get_gen (fun m => m.d_edgea)
        (fun g => g.blk.d_edgea) (fun m g => rfl)
        ((themeStack (Dot.mk data (some t))).reverse) k
        ⟨[], [], [], [], [], [], []⟩
        (fun g hg => (hn g (hrev g hg)).2.2.1)
      rw [List.reverse_reverse] at hfold
      refine hfold.trans ?_
      cases chainGet (fun g => g.blk.d_edgea) k
        (themeStack (Dot.mk data (some t))) <;> rfl
    · have hfold := fold_get_gen (fun m => m.grapha)
        (fun g => g.blk.grapha) (fun m g => rfl)
        ((themeStack (Dot.mk data (some t))).reverse) k
        ⟨[], [], [], [], [], [], []⟩
        (fun g hg => (hn g (hrev g hg)).2.2.2.1)
      rw [List.reverse_reverse] at hfold
      refine hfold.trans ?_
      cases chainGet (fun g => g.blk.grapha) k
        (themeStack (Dot.mk data (some t))) <;> rfl
    · have hfold := fold_role_gen (fun m => m.graphroles)
        (fun g => g.graphroles) (fun m g => rfl)
        ((themeStack (Dot.mk data (some t))).reverse) r a
        ⟨[], [], [], [], [], [], []⟩
        (fun g hg => (hn g (hrev g hg)).2.2.2.2.1)
      rw [List.reverse_reverse] at hfold
      refine hfold.trans ?_
      cases chainRoleGet (fun g => g.graphroles) r a
        (themeStack (Dot.mk data (some t))) <;> rfl
    · have hfold := fold_role_gen (fun m => m.noderoles)
        (fun g => g.noderoles) (fun m g => rfl)
        ((themeStack (Dot.mk data (some t))).reverse) r a
        ⟨[], [], [], [], [], [], []⟩
        (fun g hg => (hn g (hrev g hg)).2.2.2.2.2.1)
      rw [List.reverse_reverse] at hfold
      refine hfold.trans ?_
      cases chainRoleGet (fun g => g.noderoles) r a
        (themeStack (Dot.mk data (some t))) <;> rfl
    · have hfold := fold_role_gen (fun m => m.edgeroles)
        (fun g => g.edgeroles) (fun m g => rfl)
        ((themeStack (Dot.mk data (some t))).reverse) r a
        ⟨[], [], [], [], [], [], []⟩
        (fun g hg => (hn g (hrev g hg)).2.2.2.2.2.2)
      rw [List.reverse_reverse] at hfold
      refine hfold.trans ?_
      cases chainRoleGet (fun g => g.edgeroles) r a
        (themeStack (Dot.mk data (some t))) <;> rfl

theorem dictUpdate_nil_get [DecidableEq α] (s : Dict α β) (k : α)
    (hn : (s.map Prod.fst).Nodup) :
    dictGet k (dictUpdate ([] : Dict α β) s) = dictGet k s := by
  rw [dictGet_update_nodup s k _ hn]
  cases dictGet k s <;> rfl

theorem store_reflect (st : GraphStore) (fuel g t : Nat)
    (dg dt dt' : GraphData) (k : Str) (hgt : g ≠ t)
    (hg : dictGet g st = some (dg, some t))
    (ht : dictGet t st = some (dt, none)) :
    materialize st (fuel + 2) g = some (.mk dg (some (.mk dt none))) ∧
    materialize (dictSet st t (dt', none)) (fuel + 2) g =
      some (.mk dg (some (.mk dt' none))) ∧
    dictGet g (dictSet st t (dt', none)) = dictGet g st ∧
    (dictGet k dg.blk.d_grapha = none →
      (dg.blk.d_grapha.map Prod.fst).Nodup →
      (dt.blk.d_grapha.map Prod.fst).Nodup →
      (dt'.blk.d_grapha.map Prod.fst).Nodup →
      dictGet k (mienOf (.mk dg (some (.mk dt none)))).d_grapha =
        dictGet k dt.blk.d_grapha ∧
      dictGet k (mienOf (.mk dg (some (.mk dt' none)))).d_grapha =
        dictGet k dt'.blk.d_grapha) := by
  have hga : dictGet g (dictSet st t (dt', none)) = dictGet g st :=
    dictGet_set_ne st t g (dt', none) (fun he => hgt he.symm)
  have hta : dictGet t (dictSet st t (dt', none)) = some (dt', none) :=
    dictGet_set_self st t (dt', none)
  have m1 : materialize st (fuel + 1) t = some (.mk dt none) := by
    show (match dictGet t st with
      | none => none
      | some (data, none) => some (Dot.mk data none)
      | some (data, some t2) =>
        (materialize st fuel t2).map (fun td => Dot.mk data (some td))) = _
    rw [ht]
  have m2 : materialize st (fuel + 2) g =
      some (.mk dg (some (.mk dt none))) := by
    show (match dictGet g st with
      | none => none
      | some (data, none) => some (Dot.mk data none)
      | some (data, some t2) =>
        (materialize st (fuel + 1) t2).map (fun td => Dot.mk data (some td)))
      = _
    rw [hg]
    show (materialize st (fuel + 1) t).map (fun td => Dot.mk dg (some td)) = _
    rw [m1]
    rfl
  have m1' : materialize (dictSet st t (dt', none)) (fuel + 1) t =
      some (.mk dt' none) := by
    show (match dictGet t (dictSet st t (dt', none)) with
      | none => none
      | some (data, none) => some (Dot.mk data none)
      | some (data, some t2) =>
        (materialize (dictSet st t (dt', none)) fuel t2).map
          (fun td => Dot.mk data (some td))) = _
    rw [hta]
  have m2' : materialize (dictSet st t (dt', none)) (fuel + 2) g =
      some (.mk dg (some (.mk dt' none))) := by
    show (match dictGet g (dictSet st t (dt', none)) with
      | none => none
      | some (data, none) => some (Dot.mk data none)
      | some (data, some t2) =>
        (materialize (dictSet st t (dt', none)) (fuel + 1) t2).map
          (fun td => Dot.mk data (some td))) = _
    rw [hga, hg]
    show (materialize (dictSet st t (dt', none)) (fuel + 1) t).map
      (fun td => Dot.mk dg (some td)) = _
    rw [m1']
    rfl
  refine ⟨m2, m2', hga, ?_⟩
  intro hk hndg hndt hndt'
  constructor
  · show dictGet k (dictUpdate (dictUpdate [] dt.blk.d_grapha)
      dg.blk.d_grapha) = _
    rw [dictGet_update_nodup dg.blk.d_grapha k _ hndg, hk]
    exact dictUpdate_nil_get dt.blk.d_grapha k hndt
  · show dictGet k (dictUpdate (dictUpdate [] dt'.blk.d_grapha)
      dg.blk.d_grapha) = _
    rw [dictGet_update_nodup dg.blk.d_grapha k _ hndg, hk]
    exact dictUpdate_nil_get dt'.blk.d_grapha k hndt'

/-- C4 (amended): the effective attribute view of a themed graph is the
nearest-wins merge of the theme chain — for every default/direct
attribute map and every role table, looking up a key in the merged mien
equals walking the chain from the graph to its farthest ancestor and
taking the first entry found (for roles, per attribute within the named
role); and the view is recomputed from the live theme objects: mutating a
theme's stored data in the object store changes what a later serialization
of a using graph materializes, without any change to the graph's own entry
(no `use_theme` call), and for a key the graph does not override, the
merged view's value follows the theme's new value.  (The original claim
that mutation changes the OUTPUT of every using graph fails when the graph
overrides the mutated key: see the counterexample.) -/
theorem c4_theme_precedence_and_reflection :
    (∀ (d : Dot) (k : Str) (r : NormID) (a : Str), NodupChain d →
      dictGet k (mienOf d).d_grapha =
        chainGet (fun g => g.blk.d_grapha) k (themeStack d) ∧
      dictGet k (mienOf d).d_nodea =
        chainGet (fun g => g.blk.d_nodea) k (themeStack d) ∧
      dictGet k (mienOf d).d_edgea =
        chainGet (fun g => g.blk.d_edgea) k (themeStack d) ∧
      dictGet k (mienOf d).grapha =
        chainGet (fun g => g.blk.grapha) k (themeStack d) ∧
      roleGet (mienOf d).graphroles r a =
        chainRoleGet (fun g => g.graphroles) r a (themeStack d) ∧
      roleGet (mienOf d).noderoles r a =
        chainRoleGet (fun g => g.noderoles) r a (themeStack d) ∧
      roleGet (mienOf d).edgeroles r a =
        chainRoleGet (fun g => g.edgeroles) r a (themeStack d)) ∧
    (∀ (st : GraphStore) (fuel g t : Nat) (dg dt dt' : GraphData) (k : Str),
      g ≠ t →
      dictGet g st = some (dg, some t) →
      dictGet t st = some (dt, none) →
      materialize st (fuel + 2) g = some (.mk dg (some (.mk dt none))) ∧
      materialize (dictSet st t (dt', none)) (fuel + 2) g =
        some (.mk dg (some (.mk dt' none))) ∧
      dictGet g (dictSet st t (dt', none)) = dictGet g st ∧
      (dictGet k dg.blk.d_grapha = none →
        (dg.blk.d_grapha.map Prod.fst).Nodup →
        (dt.blk.d_grapha.map Prod.fst).Nodup →
        (dt'.blk.d_grapha.map Prod.fst).Nodup →
        dictGet k (mienOf (.mk dg (some (.mk dt none)))).d_grapha =
          dictGet k dt.blk.d_grapha ∧
        dictGet k (mienOf (.mk dg (some (.mk dt' none)))).d_grapha =
          dictGet k dt'.blk.d_grapha)) :=
  ⟨fun d k r a hn => mien_view d k r a hn,
   fun st fuel g t dg dt dt' k hgt hg ht =>
     store_reflect st fuel g t dg dt dt' k hgt hg ht⟩

/-- C4 counterexample: a graph that sets its own `graph_default`
`color=red` and uses a theme whose `color` is mutated from blue to green
serializes to the SAME text before and after the mutation — the nearer
entry masks the theme's change, so mutating a theme does not change the
next serialization of every graph using it. -/
theorem c4_masked_override_output_unchanged :
    ∃ t0 tBlue tGreen gRed dB dA,
      mkDot false false false none none = .ok t0 ∧
      graphDefaultOp t0 [("color".data, some (.str "blue".data))] =
        .ok tBlue ∧
      graphDefaultOp t0 [("color".data, some (.str "green".data))] =
        .ok tGreen ∧
      graphDefaultOp t0 [("color".data, some (.str "red".data))] = .ok gRed ∧
      dictGet "color".data tBlue.data.blk.d_grapha =
        some (.str "blue".data) ∧
      dictGet "color".data tGreen.data.blk.d_grapha =
        some (.str "green".data) ∧
      dictGet 0 (dictSet [(0, (gRed.data, some 1)), (1, (tBlue.data, none))]
          1 (tGreen.data, none)) =
        dictGet 0 [(0, (gRed.data, some 1)), (1, (tBlue.data, none))] ∧
      materialize [(0, (gRed.data, some 1)), (1, (tBlue.data, none))] 3 0 =
        some dB ∧
      materialize (dictSet [(0, (gRed.data, some 1)),
          (1, (tBlue.data, none))] 1 (tGreen.data, none)) 3 0 = some dA ∧
      dotStr 100 dB = .ok "graph \x7b\n    graph [color=red]\n\x7d\n".data ∧
      dotStr 100 dA = .ok "graph \x7b\n    graph [color=red]\n\x7d\n".data := by
  refine ⟨_, _, _, _, _, _, rfl, rfl, rfl, rfl, rfl, rfl, rfl, rfl, rfl,
    rfl, rfl⟩

/-- Witness for C4 at concrete inputs: a red-overriding graph themed in
blue for the precedence part, and an empty graph over a blue theme mutated
to green for the reflection part. -/
theorem c4_theme_precedence_and_reflection_witness :
    (dictGet "color".data (mienOf wC4g).d_grapha =
      chainGet (fun g => g.blk.d_grapha) "color".data (themeStack wC4g) ∧
    dictGet "color".data (mienOf wC4g).d_nodea =
      chainGet (fun g => g.blk.d_nodea) "color".data (themeStack wC4g) ∧
    dictGet "color".data (mienOf wC4g).d_edgea =
      chainGet (fun g => g.blk.d_edgea) "color".data (themeStack wC4g) ∧
    dictGet "color".data (mienOf wC4g).grapha =
      chainGet (fun g => g.blk.grapha) "color".data (themeStack wC4g) ∧
    roleGet (mienOf wC4g).graphroles (.str "r".data) "a".data =
      chainRoleGet (fun g => g.graphroles) (.str "r".data) "a".data
        (themeStack wC4g) ∧
    roleGet (mienOf wC4g).noderoles (.str "r".data) "a".data =
      chainRoleGet (fun g => g.noderoles) (.str "r".data) "a".data
        (themeStack wC4g) ∧
    roleGet (mienOf wC4g).edgeroles (.str "r".data) "a".data =
      chainRoleGet (fun g => g.edgeroles) (.str "r".data) "a".data
        (themeStack wC4g)) ∧
    (materialize wC4st 3 0 = some (.mk wC4dgE (some (.mk wC4dtB none))) ∧
    materialize (dictSet wC4st 1 (wC4dtG, none)) 3 0 =
      some (.mk wC4dgE (some (.mk wC4dtG none))) ∧
    dictGet 0 (dictSet wC4st 1 (wC4dtG, none)) = dictGet 0 wC4st) ∧
    (dictGet "color".data
        (mienOf (.mk wC4dgE (some (.mk wC4dtB none)))).d_grapha =
      some (.str "blue".data) ∧
    dictGet "color".data
        (mienOf (.mk wC4dgE (some (.mk wC4dtG none)))).d_grapha =
      some (.str "green".data)) := by
  have hB := c4_theme_precedence_and_reflection.2 wC4st 1 0 1 wC4dgE wC4dtB wC4dtG "color".data
    (by decide) rfl rfl
  have hI := hB.2.2.2 rfl (by decide) (by decide) (by decide)
  exact ⟨c4_theme_precedence_and_reflection.1 wC4g "color".data (.str "r".data) "a".data (by decide),
    ⟨hB.1, hB.2.1, hB.2.2.1⟩,
    ⟨hI.1.trans (by decide), hI.2.trans (by decide)⟩⟩
